import Mathlib

/-!
# The terminal dashboard's event-driven state machine

A shallow embedding of `internal/tui/models` (root orchestrator `Model.Update`
and the sub-view `Update` functions) together with the facts proved about it.

Conventions of the embedding:

* Go `int` is `Int`; a slice is a `List`; a nilable pointer is an `Option`.
* A `tea.Cmd` is the list of the atomic commands it runs: `nil` is `[]`,
  `append(cmds, cmd)` is `cmds ++ cmd` and `tea.Batch(cmds...)` is the list itself.
* A `tea.KeyMsg` is represented by the text `msg.String()` returns, which is all
  that `key.Matches` and the `switch msg.String()` statements look at.
* `time.Time` is an integer number of nanoseconds; the reading of the wall clock
  taken by `time.Now()` / `time.Since` is the explicit argument `now` of `Model.Update`.
* A run-time panic (slice index out of range) is the result `none`.
* The widgets of the `bubbles` library (table, text input, text area, viewport) are
  not part of the repository: they are the fields of a `Toolkit`, and every theorem
  holds for every toolkit.
-/

namespace CursorTUI

/-! ## `internal/client`: the data carried by the events -/

/-- Source repository information (`client.Source`). -/
structure Source where
  Repository : String
  Ref : String
deriving DecidableEq, Repr, Inhabited

/-- Target branch and pull-request information (`client.Target`). -/
structure Target where
  BranchName : String
  URL : String
  PrURL : String
  AutoCreatePr : Bool
deriving DecidableEq, Repr, Inhabited

/-- A background agent (`client.Agent`); `CreatedAt` is a time stamp. -/
structure Agent where
  ID : String
  Name : String
  Status : String
  Source : Source
  Target : Target
  Summary : String
  CreatedAt : Int
deriving DecidableEq, Repr, Inhabited

/-- A conversation message (`client.Message`); `Type_` is its field `Type`. -/
structure Message where
  ID : String
  Type_ : String
  Text : String
deriving DecidableEq, Repr, Inhabited

/-- The conversation of one agent (`client.ConversationResponse`). -/
structure ConversationResponse where
  ID : String
  Messages : List Message
deriving DecidableEq, Repr, Inhabited

/-- The API client (`client.Client`); the HTTP transport is not modelled. -/
structure Client where
  BaseURL : String
  APIKey : String
deriving DecidableEq, Repr, Inhabited

/-! ## `messages.go`: events and commands -/

/-- The events `Update` receives (`tea.Msg`). `AgentSelectedMsg` carries the agent, as both
its producer (`dashboard.go:76`) and its consumer (`main.go:250`) use it. `Other` stands for
every message type none of the `switch` statements names (mouse, cursor blink, ...). -/
inductive Msg where
  | WindowSizeMsg (Width Height : Int)
  | KeyMsg (key : String)
  | AgentsMsg (Agents : List Agent)
  | ConversationMsg (Conversation : ConversationResponse)
  | ErrorMsg (Error : String)
  | TickMsg (t : Int)
  | AgentSelectedMsg (Agent : Agent)
  | FollowupSentMsg (AgentID Message : String)
  | Other (tag : Nat)
deriving DecidableEq, Repr, Inhabited

/-- One atomic command.
* `Quit` is `tea.Quit`;
* `fetchAgents c` is the closure built by `Model.fetchAgents` (it captures the client);
* `fetchConversation c id` the one built by `Model.fetchConversation`;
* `sendFollowup c id text` the one built by `Model.sendFollowup`;
* `tickCmd` is `tea.Tick(time.Second, ...)` built by `Model.tickCmd`;
* `send msg` is a closure `func() tea.Msg` that returns `msg` and does nothing else;
* `widget n` is a command returned by a library widget. -/
inductive Cmd1 where
  | Quit
  | fetchAgents (c : Client)
  | fetchConversation (c : Client) (agentID : String)
  | sendFollowup (c : Client) (agentID message : String)
  | tickCmd
  | send (msg : Msg)
  | widget (n : Nat)
deriving DecidableEq, Repr, Inhabited

/-- A `tea.Cmd`: the atomic commands it runs (`nil` is the empty list). -/
abbrev Cmd := List Cmd1

/-! ## `bubbles/key` -/

/-- A key binding (`key.Binding`): its keys and whether it was disabled; the help text
is presentation only. -/
structure Binding where
  keys : List String
  disabled : Bool
deriving DecidableEq, Repr, Inhabited

/-- The call `key.NewBinding(key.WithKeys(ks...), ...)`. -/
def NewBinding (ks : List String) : Binding := ⟨ks, false⟩

/-- The method `Binding.Enabled`: not disabled and with at least one key. -/
def Binding.Enabled (b : Binding) : Bool := !b.disabled && !b.keys.isEmpty

/-- The call `key.Matches(msg, b)`: some key of the binding is the text of the key press,
and the binding is enabled. -/
def Matches (k : String) (b : Binding) : Bool := b.keys.any (fun v => k == v && b.Enabled)

/-! ## The widget toolkit -/

/-- The cells of a table row (`table.Row`). -/
abbrev Row := List String

/-- What the views use of the rendering toolkit. The widget types and their methods belong
to the `bubbles` library; `rowCells` and `renderConversation` are the text formatting of
`updateTable` (status emoji, truncation, repository short name, time layout) and of
`ConversationModel.renderConversation`, which build strings and do nothing else. -/
structure Toolkit where
  /-- The type `table.Model`. -/
  Table : Type
  /-- The table built in `NewDashboardModel`. -/
  tableNew : Table
  /-- The method `Cursor`. -/
  tableCursor : Table → Int
  /-- The method `SetRows`. -/
  tableSetRows : Table → List Row → Table
  /-- The method `Update` of the table. -/
  tableUpdate : Table → Msg → Table × List Nat
  /-- The type `textinput.Model`. -/
  TextInput : Type
  /-- The text input built in `NewFollowupModel`. -/
  inputNew : TextInput
  inputValue : TextInput → String
  inputSetValue : TextInput → String → TextInput
  inputFocus : TextInput → TextInput
  inputBlur : TextInput → TextInput
  inputUpdate : TextInput → Msg → TextInput × List Nat
  /-- The type `textarea.Model`. -/
  TextArea : Type
  /-- The text area built in `NewFollowupModel`. -/
  areaNew : TextArea
  areaValue : TextArea → String
  areaSetValue : TextArea → String → TextArea
  areaFocus : TextArea → TextArea
  areaBlur : TextArea → TextArea
  areaUpdate : TextArea → Msg → TextArea × List Nat
  /-- The type `viewport.Model`. -/
  Viewport : Type
  /-- The zero value of `viewport.Model`. -/
  viewportZero : Viewport
  /-- The call `viewport.New(width, height)`. -/
  viewportNew : Int → Int → Viewport
  viewportSetWidth : Viewport → Int → Viewport
  viewportSetHeight : Viewport → Int → Viewport
  viewportSetContent : Viewport → String → Viewport
  viewportUpdate : Viewport → Msg → Viewport × List Nat
  /-- The five cells `updateTable` builds for an agent. -/
  rowCells : Agent → Row
  /-- The text `renderConversation` builds for a conversation. -/
  renderConversation : ConversationResponse → String

/-- A widget command as a `tea.Cmd`. -/
def widgetCmd (ns : List Nat) : Cmd := ns.map Cmd1.widget

/-- The Go expression `xs[i]`: `none` is the panic for an index out of range. -/
def index {α : Type} (xs : List α) (i : Int) : Option α :=
  if i < 0 then none else xs.get? i.toNat

/-! ## `dashboard.go` -/

/-- The dashboard view model. -/
structure DashboardModel (T : Toolkit) where
  table : T.Table
  showAll : Bool
  selectedRow : Int
  filteredAgents : List Agent
  allAgents : List Agent

/-- The constructor `NewDashboardModel`. -/
def NewDashboardModel (T : Toolkit) : DashboardModel T :=
  { table := T.tableNew, showAll := false, selectedRow := 0, filteredAgents := [], allAgents := [] }

/-- The loop of `updateTable`: the agents kept, in order. An agent is skipped
(`continue`) when `!m.showAll && agent.Status == "EXPIRED"`. -/
def keptAgents (showAll : Bool) : List Agent → List Agent
  | [] => []
  | agent :: rest =>
    if !showAll && agent.Status == "EXPIRED" then keptAgents showAll rest
    else agent :: keptAgents showAll rest

/-- The method `updateTable`: stores the agents, appends every agent that is not skipped to
`filteredAgents` and its row to `rows`, and hands the rows to the table. -/
def DashboardModel.updateTable {T : Toolkit} (m : DashboardModel T) (agents : List Agent) :
    DashboardModel T :=
  let filteredAgents := keptAgents m.showAll agents
  let rows := filteredAgents.map T.rowCells
  { m with allAgents := agents, filteredAgents := filteredAgents,
           table := T.tableSetRows m.table rows }

/-- The end of `DashboardModel.Update` (lines 85-88): the table processes the message and
`selectedRow` is read back from its cursor. -/
def DashboardModel.tableStep {T : Toolkit} (m : DashboardModel T) (msg : Msg) :
    DashboardModel T × Cmd :=
  let r := T.tableUpdate m.table msg
  ({ m with table := r.1, selectedRow := T.tableCursor r.1 }, widgetCmd r.2)

/-- The method `DashboardModel.Update`. -/
def DashboardModel.Update {T : Toolkit} (m : DashboardModel T) (msg : Msg) :
    Option (DashboardModel T × Cmd) :=
  match msg with
  | .KeyMsg k =>
    if Matches k (NewBinding ["t"]) then
      let m := { m with showAll := !m.showAll }
      let m := m.updateTable m.allAgents
      some (m.tableStep msg)
    else if Matches k (NewBinding ["enter"]) then
      let selectedRow := T.tableCursor m.table
      if selectedRow < m.filteredAgents.length then
        match index m.filteredAgents selectedRow with
        | some selectedAgent => some (m, [Cmd1.send (Msg.AgentSelectedMsg selectedAgent)])
        | none => none
      else some (m.tableStep msg)
    else some (m.tableStep msg)
  | .AgentsMsg agents => some ((m.updateTable agents).tableStep msg)
  | _ => some (m.tableStep msg)

/-! ## `details.go`, `settings.go`, `help.go` -/

/-- The agent details view model. -/
structure DetailsModel where
  scrollOffset : Int
deriving DecidableEq, Repr, Inhabited

/-- The constructor `NewDetailsModel`. -/
def NewDetailsModel : DetailsModel := { scrollOffset := 0 }

/-- The method `DetailsModel.Update`; it always returns the `nil` command. -/
def DetailsModel.Update (m : DetailsModel) (msg : Msg) : DetailsModel × Cmd :=
  match msg with
  | .KeyMsg k =>
    if k = "up" ∨ k = "k" then
      if m.scrollOffset > 0 then ({ m with scrollOffset := m.scrollOffset - 1 }, [])
      else (m, [])
    else if k = "down" ∨ k = "j" then ({ m with scrollOffset := m.scrollOffset + 1 }, [])
    else if k = "home" then ({ m with scrollOffset := 0 }, [])
    else if k = "end" then ({ m with scrollOffset := 100 }, [])
    else (m, [])
  | _ => (m, [])

/-- The settings view model. -/
structure SettingsModel where
  selectedOption : Int
  options : List String
deriving DecidableEq, Repr, Inhabited

/-- The constructor `NewSettingsModel`. -/
def NewSettingsModel : SettingsModel :=
  { selectedOption := 0,
    options := ["Auto-refresh agents", "Refresh interval", "Show expired agents", "API key info"] }

/-- The method `SettingsModel.Update`; the branches of `enter` and space are empty. -/
def SettingsModel.Update (m : SettingsModel) (msg : Msg) : SettingsModel × Cmd :=
  match msg with
  | .KeyMsg k =>
    if k = "up" ∨ k = "k" then
      if m.selectedOption > 0 then ({ m with selectedOption := m.selectedOption - 1 }, [])
      else (m, [])
    else if k = "down" ∨ k = "j" then
      if m.selectedOption < (m.options.length : Int) - 1 then
        ({ m with selectedOption := m.selectedOption + 1 }, [])
      else (m, [])
    else (m, [])
  | _ => (m, [])

/-- The help view model (`struct{}`). -/
structure HelpModel where
deriving DecidableEq, Repr, Inhabited

/-- The constructor `NewHelpModel`. -/
def NewHelpModel : HelpModel := {}

/-- The method `HelpModel.Update`. -/
def HelpModel.Update (m : HelpModel) (_msg : Msg) : HelpModel × Cmd := (m, [])

/-! ## `conversation.go` -/

/-- The conversation view model. -/
structure ConversationModel (T : Toolkit) where
  viewport : T.Viewport
  ready : Bool

/-- The constructor `NewConversationModel` (the zero value). -/
def NewConversationModel (T : Toolkit) : ConversationModel T :=
  { viewport := T.viewportZero, ready := false }

/-- The method `ConversationModel.Update`. -/
def ConversationModel.Update {T : Toolkit} (m : ConversationModel T) (msg : Msg) :
    ConversationModel T × Cmd :=
  let m : ConversationModel T :=
    match msg with
    | .WindowSizeMsg Width Height =>
      if !m.ready then
        { m with viewport := T.viewportNew (Width - 4) (Height - 8), ready := true }
      else
        { m with viewport :=
            T.viewportSetHeight (T.viewportSetWidth m.viewport (Width - 4)) (Height - 8) }
    | .ConversationMsg Conversation =>
      let content := T.renderConversation Conversation
      { m with viewport := T.viewportSetContent m.viewport content }
    | _ => m
  let r := T.viewportUpdate m.viewport msg
  ({ m with viewport := r.1 }, widgetCmd r.2)

/-! ## `followup.go` -/

/-- The follow-up view model. -/
structure FollowupModel (T : Toolkit) where
  textarea : T.TextArea
  textinput : T.TextInput
  useTextarea : Bool
  sending : Bool
  sent : Bool
  error : String

/-- The constructor `NewFollowupModel`. -/
def NewFollowupModel (T : Toolkit) : FollowupModel T :=
  { textarea := T.areaNew, textinput := T.inputNew, useTextarea := false,
    sending := false, sent := false, error := "" }

/-- The method `sendMessage`. Its receiver is a value, so the assignment `m.sending = true`
changes the copy that the method received and nothing else; the method returns the closure
`func() tea.Msg` that returns `FollowupSentMsg` with the message (and no agent id). -/
def FollowupModel.sendMessage {T : Toolkit} (m : FollowupModel T) (message : String) : Cmd :=
  let _m : FollowupModel T := { m with sending := true }
  [Cmd1.send (Msg.FollowupSentMsg "" message)]

/-- The method `reset` (pointer receiver). -/
def FollowupModel.reset {T : Toolkit} (m : FollowupModel T) : FollowupModel T :=
  { m with textinput := T.inputSetValue m.textinput "",
           textarea := T.areaSetValue m.textarea "",
           sending := false, sent := false, error := "" }

/-- The end of `FollowupModel.Update` (lines 91-99): the input in use processes the message. -/
def FollowupModel.inputStep {T : Toolkit} (m : FollowupModel T) (msg : Msg) :
    FollowupModel T × Cmd :=
  if m.useTextarea then
    let r := T.areaUpdate m.textarea msg
    ({ m with textarea := r.1 }, [] ++ widgetCmd r.2)
  else
    let r := T.inputUpdate m.textinput msg
    ({ m with textinput := r.1 }, [] ++ widgetCmd r.2)

/-- The method `FollowupModel.Update`. -/
def FollowupModel.Update {T : Toolkit} (m : FollowupModel T) (msg : Msg) :
    FollowupModel T × Cmd :=
  match msg with
  | .KeyMsg k =>
    if k = "ctrl+t" then
      let m := { m with useTextarea := !m.useTextarea }
      let m : FollowupModel T :=
        if m.useTextarea then
          { m with textarea := T.areaFocus m.textarea, textinput := T.inputBlur m.textinput }
        else
          { m with textinput := T.inputFocus m.textinput, textarea := T.areaBlur m.textarea }
      m.inputStep msg
    else if k = "enter" then
      if !m.useTextarea && T.inputValue m.textinput != "" && !m.sending then
        (m, m.sendMessage (T.inputValue m.textinput))
      else m.inputStep msg
    else if k = "ctrl+enter" then
      if m.useTextarea && T.areaValue m.textarea != "" && !m.sending then
        (m, m.sendMessage (T.areaValue m.textarea))
      else m.inputStep msg
    else if k = "esc" then
      if !m.sending then m.reset.inputStep msg
      else m.inputStep msg
    else m.inputStep msg
  | .FollowupSentMsg _ _ =>
    ({ m with sending := false, sent := true, error := "" } : FollowupModel T).inputStep msg
  | .ErrorMsg Error =>
    ({ m with sending := false, error := Error } : FollowupModel T).inputStep msg
  | _ => m.inputStep msg

/-! ## `main.go` -/

/-- The views of the TUI. -/
inductive View where
  | DashboardView
  | AgentDetailsView
  | ConversationView
  | FollowupView
  | SettingsView
  | HelpView
deriving DecidableEq, Repr, Inhabited

open View

/-- The key bindings of the TUI. -/
structure KeyMap where
  Up : Binding
  Down : Binding
  Left : Binding
  Right : Binding
  Enter : Binding
  Back : Binding
  Refresh : Binding
  Help : Binding
  Quit : Binding
  Tab : Binding
  Details : Binding
  Conversation : Binding
  Followup : Binding
  Settings : Binding
  Toggle : Binding
deriving DecidableEq, Repr, Inhabited

/-- The function `DefaultKeyMap`. -/
def DefaultKeyMap : KeyMap :=
  { Up := NewBinding ["up", "k"],
    Down := NewBinding ["down", "j"],
    Left := NewBinding ["left", "h"],
    Right := NewBinding ["right", "l"],
    Enter := NewBinding ["enter"],
    Back := NewBinding ["esc", "backspace"],
    Refresh := NewBinding ["r", "f5"],
    Help := NewBinding ["?", "f1"],
    Quit := NewBinding ["q", "ctrl+c"],
    Tab := NewBinding ["tab"],
    Details := NewBinding ["d"],
    Conversation := NewBinding ["c"],
    Followup := NewBinding ["f"],
    Settings := NewBinding ["s"],
    Toggle := NewBinding ["t"] }

/-- A point in time (`time.Time`), in nanoseconds since the zero `time.Time`. -/
abbrev Time := Int

/-- The constant `time.Second`, a `time.Duration` in nanoseconds. -/
def Second : Int := 1000000000

/-- The largest `time.Duration` (a 64-bit count of nanoseconds). -/
def maxDuration : Int := 2 ^ 63 - 1

/-- The smallest `time.Duration`. -/
def minDuration : Int := -(2 ^ 63)

/-- The call `time.Since(t)` at wall-clock reading `now`: the elapsed time `now - t`, which
`Time.Sub` replaces by the largest or the smallest duration when it is out of range. -/
def Since (now t : Time) : Int :=
  if now - t > maxDuration then maxDuration
  else if now - t < minDuration then minDuration
  else now - t

/-- The main TUI model. -/
structure Model (T : Toolkit) where
  currentView : View
  width : Int
  height : Int
  client : Client
  agents : List Agent
  selectedAgent : Option Agent
  conversation : Option ConversationResponse
  dashboard : DashboardModel T
  details : DetailsModel
  conversationModel : ConversationModel T
  followup : FollowupModel T
  settings : SettingsModel
  help : HelpModel
  loading : Bool
  error : String
  lastRefresh : Time
  autoRefresh : Bool
  keyMap : KeyMap

/-- The constructor `NewModel`; the fields it does not set have their zero value. -/
def NewModel (T : Toolkit) (apiClient : Client) : Model T :=
  { currentView := DashboardView, width := 0, height := 0,
    client := apiClient,
    agents := [], selectedAgent := none, conversation := none,
    dashboard := NewDashboardModel T,
    details := NewDetailsModel,
    conversationModel := NewConversationModel T,
    followup := NewFollowupModel T,
    settings := NewSettingsModel,
    help := NewHelpModel,
    loading := false, error := "", lastRefresh := 0,
    autoRefresh := true,
    keyMap := DefaultKeyMap }

/-- The method `fetchAgents` of `messages.go`. -/
def Model.fetchAgents {T : Toolkit} (m : Model T) : Cmd := [Cmd1.fetchAgents m.client]

/-- The method `fetchConversation` of `messages.go`. -/
def Model.fetchConversation {T : Toolkit} (m : Model T) (agentID : String) : Cmd :=
  [Cmd1.fetchConversation m.client agentID]

/-- The method `sendFollowup` of `messages.go`. -/
def Model.sendFollowup {T : Toolkit} (m : Model T) (agentID message : String) : Cmd :=
  [Cmd1.sendFollowup m.client agentID message]

/-- The method `tickCmd` of `messages.go`. -/
def Model.tickCmd {T : Toolkit} (_m : Model T) : Cmd := [Cmd1.tickCmd]

/-- The method `Init`. -/
def Model.Init {T : Toolkit} (m : Model T) : Cmd := m.fetchAgents ++ m.tickCmd

/-- The end of `Model.Update` (lines 255-272): the active view processes the message and its
command is appended to `cmds`. -/
def Model.updateCurrentView {T : Toolkit} (m : Model T) (msg : Msg) (cmds : Cmd) :
    Option (Model T × Cmd) :=
  match m.currentView with
  | DashboardView =>
    match m.dashboard.Update msg with
    | some r => some ({ m with dashboard := r.1 }, cmds ++ r.2)
    | none => none
  | AgentDetailsView =>
    let r := m.details.Update msg
    some ({ m with details := r.1 }, cmds ++ r.2)
  | ConversationView =>
    let r := m.conversationModel.Update msg
    some ({ m with conversationModel := r.1 }, cmds ++ r.2)
  | FollowupView =>
    let r := m.followup.Update msg
    some ({ m with followup := r.1 }, cmds ++ r.2)
  | SettingsView =>
    let r := m.settings.Update msg
    some ({ m with settings := r.1 }, cmds ++ r.2)
  | HelpView =>
    let r := m.help.Update msg
    some ({ m with help := r.1 }, cmds ++ r.2)

/-- The method `Model.Update`, at wall-clock reading `now`. -/
def Model.Update {T : Toolkit} (m : Model T) (msg : Msg) (now : Time) :
    Option (Model T × Cmd) :=
  match msg with
  | .WindowSizeMsg Width Height =>
    ({ m with width := Width, height := Height } : Model T).updateCurrentView msg []
  | .KeyMsg k =>
    if Matches k m.keyMap.Quit then some (m, [Cmd1.Quit])
    else if Matches k m.keyMap.Help then
      ({ m with currentView := HelpView } : Model T).updateCurrentView msg []
    else if Matches k m.keyMap.Back then
      if m.currentView ≠ DashboardView then
        ({ m with currentView := DashboardView } : Model T).updateCurrentView msg []
      else m.updateCurrentView msg []
    else if Matches k m.keyMap.Refresh then
      m.updateCurrentView msg ([] ++ m.fetchAgents)
    else if Matches k m.keyMap.Enter then
      if m.currentView = DashboardView ∧ m.selectedAgent ≠ none then
        ({ m with currentView := AgentDetailsView } : Model T).updateCurrentView msg []
      else m.updateCurrentView msg []
    else if Matches k m.keyMap.Details then
      if m.selectedAgent ≠ none then
        ({ m with currentView := AgentDetailsView } : Model T).updateCurrentView msg []
      else m.updateCurrentView msg []
    else if Matches k m.keyMap.Conversation then
      match m.selectedAgent with
      | some selectedAgent =>
        let m : Model T := { m with currentView := ConversationView }
        m.updateCurrentView msg ([] ++ m.fetchConversation selectedAgent.ID)
      | none => m.updateCurrentView msg []
    else if Matches k m.keyMap.Followup then
      match m.selectedAgent with
      | some selectedAgent =>
        if selectedAgent.Status = "RUNNING" then
          ({ m with currentView := FollowupView } : Model T).updateCurrentView msg []
        else m.updateCurrentView msg []
      | none => m.updateCurrentView msg []
    else if Matches k m.keyMap.Settings then
      ({ m with currentView := SettingsView } : Model T).updateCurrentView msg []
    else m.updateCurrentView msg []
  | .AgentsMsg Agents =>
    let m : Model T :=
      { m with agents := Agents, loading := false, error := "", lastRefresh := now }
    match m.dashboard.Update msg with
    | some r => ({ m with dashboard := r.1 } : Model T).updateCurrentView msg ([] ++ r.2)
    | none => none
  | .ConversationMsg Conversation =>
    let m : Model T := { m with conversation := some Conversation }
    let r := m.conversationModel.Update msg
    ({ m with conversationModel := r.1 } : Model T).updateCurrentView msg ([] ++ r.2)
  | .ErrorMsg Error =>
    ({ m with error := Error, loading := false } : Model T).updateCurrentView msg []
  | .TickMsg _ =>
    let cmds : Cmd :=
      if m.autoRefresh ∧ Since now m.lastRefresh > 30 * Second then [] ++ m.fetchAgents
      else []
    m.updateCurrentView msg (cmds ++ m.tickCmd)
  | .AgentSelectedMsg Agent =>
    ({ m with selectedAgent := some Agent, currentView := AgentDetailsView } :
      Model T).updateCurrentView msg []
  | _ => m.updateCurrentView msg []

/-! ## A concrete toolkit

The theorems below hold for every toolkit. To evaluate the model on concrete inputs the
widgets are instantiated by the simplest ones: a table that keeps a cursor inside its rows,
inputs that hold their text, and a viewport that holds its content. -/

/-- A table reduced to its cursor and rows. -/
structure PlainTable where
  cursor : Int
  rows : List Row
deriving DecidableEq, Repr, Inhabited

/-- The table moves its cursor down and up inside the rows and ignores every other event. -/
def PlainTable.Update (t : PlainTable) (msg : Msg) : PlainTable × List Nat :=
  match msg with
  | .KeyMsg k =>
    if k = "down" ∨ k = "j" then
      if t.cursor + 1 < t.rows.length then ({ t with cursor := t.cursor + 1 }, []) else (t, [])
    else if k = "up" ∨ k = "k" then
      if 0 < t.cursor then ({ t with cursor := t.cursor - 1 }, []) else (t, [])
    else (t, [])
  | _ => (t, [])

/-- A text field appends the characters typed and ignores every other event. -/
def plainType (s : String) (msg : Msg) : String × List Nat :=
  match msg with
  | .KeyMsg k => if k.length = 1 then (s ++ k, []) else (s, [])
  | _ => (s, [])

/-- The concrete toolkit. -/
def plainToolkit : Toolkit where
  Table := PlainTable
  tableNew := { cursor := 0, rows := [] }
  tableCursor t := t.cursor
  tableSetRows t rows := { t with rows := rows }
  tableUpdate := PlainTable.Update
  TextInput := String
  inputNew := ""
  inputValue s := s
  inputSetValue _ v := v
  inputFocus s := s
  inputBlur s := s
  inputUpdate := plainType
  TextArea := String
  areaNew := ""
  areaValue s := s
  areaSetValue _ v := v
  areaFocus s := s
  areaBlur s := s
  areaUpdate := plainType
  Viewport := String
  viewportZero := ""
  viewportNew _ _ := ""
  viewportSetWidth v _ := v
  viewportSetHeight v _ := v
  viewportSetContent _ c := c
  viewportUpdate v _ := (v, [])
  rowCells a := [a.ID, a.Name, a.Status, a.Source.Repository]
  renderConversation c := String.intercalate "\n" (c.Messages.map (fun x => x.Text))

/-- An agent with the given id and status and empty other fields. -/
def mkAgent (id status : String) : Agent :=
  { ID := id, Name := "", Status := status, Source := ⟨"", ""⟩,
    Target := ⟨"", "", "", false⟩, Summary := "", CreatedAt := 0 }

/-- A client value for the examples. -/
def demoClient : Client := { BaseURL := "https://api.cursor.com/v0", APIKey := "key" }

/-- Processes a list of events in order, all at the same clock reading; `none` when one
of them panics. -/
def Model.run {T : Toolkit} (m : Model T) (now : Time) : List Msg → Option (Model T)
  | [] => some m
  | msg :: rest =>
    match m.Update msg now with
    | some r => Model.run r.1 now rest
    | none => none

/-! ## Reachable states -/

/-- The dashboard states the program can be in: the one `NewDashboardModel` builds and
those `Update` returns from them. -/
inductive DashboardModel.Reachable {T : Toolkit} : DashboardModel T → Prop where
  | init : DashboardModel.Reachable (NewDashboardModel T)
  | step (m m1 : DashboardModel T) (msg : Msg) (cmd : Cmd) :
      DashboardModel.Reachable m → m.Update msg = some (m1, cmd) →
      DashboardModel.Reachable m1

/-- The commands that only hand a value back to the loop: a closure that returns a message,
or a widget command. The others reach the remote service, the ticker or end the program. -/
def Cmd1.isLocal : Cmd1 → Bool
  | .send _ => true
  | .widget _ => true
  | _ => false

/-- The messages returned by the closures among the commands, in order: the events the
commands of a step produce without the remote service. -/
def sentMsgs (cmds : Cmd) : List Msg :=
  cmds.filterMap (fun x => match x with
    | .send msg => some msg
    | _ => none)

/-- Processes an event and then the events its commands produce. -/
def Model.press {T : Toolkit} (m : Model T) (msg : Msg) (now : Time) : Option (Model T) :=
  match m.Update msg now with
  | some r => Model.run r.1 now (sentMsgs r.2)
  | none => none

/-- The dashboard of the concrete toolkit after it received an expired and a running agent. -/
def demoDashboardExpiredFirst : DashboardModel plainToolkit :=
  ((NewDashboardModel plainToolkit).updateTable
    [mkAgent "a2" "EXPIRED", mkAgent "a1" "RUNNING"]).tableStep
      (Msg.AgentsMsg [mkAgent "a2" "EXPIRED", mkAgent "a1" "RUNNING"]) |>.1

/-- The events of a session: two running agents arrive, the first row is chosen, the user
goes back to the dashboard and moves the cursor to the second row. -/
def demoSession : List Msg :=
  [Msg.AgentsMsg [mkAgent "a1" "RUNNING", mkAgent "a2" "RUNNING"],
   Msg.KeyMsg "enter",
   Msg.AgentSelectedMsg (mkAgent "a1" "RUNNING"),
   Msg.KeyMsg "esc",
   Msg.KeyMsg "down"]

/-- An idle follow-up state of the concrete toolkit whose single-line input holds a text. -/
def demoFollowup (text : String) : FollowupModel plainToolkit :=
  { NewFollowupModel plainToolkit with textinput := text }

/-- An idle follow-up state of the concrete toolkit in multi-line mode holding a text. -/
def demoFollowupArea (text : String) : FollowupModel plainToolkit :=
  { NewFollowupModel plainToolkit with textarea := text, useTextarea := true }

/-- The dashboard of the concrete toolkit after it received a running and an expired agent. -/
def demoDashboard : DashboardModel plainToolkit :=
  ((NewDashboardModel plainToolkit).updateTable
    [mkAgent "a1" "RUNNING", mkAgent "a2" "EXPIRED"]).tableStep
      (Msg.AgentsMsg [mkAgent "a1" "RUNNING", mkAgent "a2" "EXPIRED"]) |>.1

/-- The initial state of the concrete toolkit with a selected agent of the given status. -/
def demoSelected (status : String) : Model plainToolkit :=
  { NewModel plainToolkit demoClient with selectedAgent := some (mkAgent "a1" status) }

/-- The follow-up state of the concrete toolkit after a failure arrived while the input
held a text: the Error phase. -/
def demoErrorFollowup : FollowupModel plainToolkit :=
  ((demoFollowup "ping").Update (Msg.ErrorMsg "boom")).1

/-- A follow-up value of the concrete toolkit whose `sending` flag is set. -/
def demoSendingFollowup : FollowupModel plainToolkit :=
  { demoFollowup "ping" with sending := true }

/-- The events of a session: a running agent arrives and is chosen, the user opens the
follow-up view with the Followup key and types four letters. -/
def demoTyping : List Msg :=
  [Msg.AgentsMsg [mkAgent "a1" "RUNNING"],
   Msg.KeyMsg "enter",
   Msg.AgentSelectedMsg (mkAgent "a1" "RUNNING"),
   Msg.KeyMsg "f",
   Msg.KeyMsg "p", Msg.KeyMsg "i", Msg.KeyMsg "n", Msg.KeyMsg "g"]

/-- The root state of the concrete toolkit after the session `demoTyping` and the submit
with Enter: the follow-up view is active and the result of the submit is not yet
processed. -/
def demoSubmitted : Model plainToolkit :=
  match (NewModel plainToolkit demoClient).run 0 (demoTyping ++ [Msg.KeyMsg "enter"]) with
  | some m => m
  | none => NewModel plainToolkit demoClient

/-- The root state after the same session and esc: the dashboard is active again and the
result of the submit is still not processed. -/
def demoSubmittedLeft : Model plainToolkit :=
  match (NewModel plainToolkit demoClient).run 0
      (demoTyping ++ [Msg.KeyMsg "enter", Msg.KeyMsg "esc"]) with
  | some m => m
  | none => NewModel plainToolkit demoClient

/-! ## The remote service and the commands that call it -/

/-- The answer of the list call (`client.ListAgentsResponse`). -/
structure ListAgentsResponse where
  Agents : List Agent
  NextCursor : String
deriving DecidableEq, Repr, Inhabited

/-- The answer of the follow-up call (`client.FollowupResponse`). -/
structure FollowupResponse where
  ID : String
deriving DecidableEq, Repr, Inhabited

/-- The three calls of `client.Client` the commands make. A call answers `Except.ok` with
the value its returned pointer points to, or `Except.error` with the text `err.Error()`
of the error it returns; the HTTP exchange behind a call is not modelled. -/
structure Remote where
  ListAgents : Client → Int → String → Except String ListAgentsResponse
  GetAgentConversation : Client → String → Except String ConversationResponse
  AddFollowup : Client → String → String → Except String FollowupResponse

/-- The message a command returns when it is run: the bodies of the closures of
`fetchAgents`, `fetchConversation` and `sendFollowup` in `messages.go`, and the message a
`send` closure holds. The quit command, the ticker and the widget commands return messages
of the runtime and of the library, which are not modelled (`none`). -/
def Cmd1.run (R : Remote) : Cmd1 → Option Msg
  | .fetchAgents c =>
    match R.ListAgents c 100 "" with
    | .error err => some (Msg.ErrorMsg err)
    | .ok response => some (Msg.AgentsMsg response.Agents)
  | .fetchConversation c agentID =>
    match R.GetAgentConversation c agentID with
    | .error err => some (Msg.ErrorMsg err)
    | .ok conversation => some (Msg.ConversationMsg conversation)
  | .sendFollowup c agentID message =>
    match R.AddFollowup c agentID message with
    | .error err => some (Msg.ErrorMsg err)
    | .ok _ => some (Msg.FollowupSentMsg agentID message)
  | .send msg => some msg
  | _ => none

/-- A remote service for the examples: the list call fails, the other two succeed. -/
def demoRemote : Remote where
  ListAgents _ _ _ := .error "timeout"
  GetAgentConversation _ agentID := .ok { ID := agentID, Messages := [] }
  AddFollowup _ _ _ := .ok { ID := "f1" }

/-! ## `cmd/list.go` -/

/-- The function `filterActiveAgents` of the list command. `ToUpper` is `strings.ToUpper`
of the Go library. -/
def filterActiveAgents (ToUpper : String → String) : List Agent → List Agent
  | [] => []
  | agent :: rest =>
    let status := ToUpper agent.Status
    if status != "EXPIRED" then agent :: filterActiveAgents ToUpper rest
    else filterActiveAgents ToUpper rest

/-- The root states the program can be in: the one `NewModel` builds and those `Update`
returns from them, for any event and any clock reading. -/
inductive Model.Reachable {T : Toolkit} : Model T → Prop where
  | init (c : Client) : Model.Reachable (NewModel T c)
  | step (m m1 : Model T) (msg : Msg) (now : Time) (cmds : Cmd) :
      Model.Reachable m → m.Update msg now = some (m1, cmds) → Model.Reachable m1

/-- The events of a session: a running agent arrives and is chosen, then a refresh
returns the same agent as completed. -/
def demoStale : List Msg :=
  [Msg.AgentsMsg [mkAgent "a1" "RUNNING"],
   Msg.KeyMsg "enter",
   Msg.AgentSelectedMsg (mkAgent "a1" "RUNNING"),
   Msg.AgentsMsg [mkAgent "a1" "COMPLETED"]]

/-- The upper-casing of the ASCII letters, for the examples. -/
def asciiUpper (s : String) : String := String.mk (s.data.map Char.toUpper)

/-! ## `details.go`: the visible window -/

/-- The Go slice expression `xs[low:high]` on a slice whose capacity is its length (as the
result of `strings.Split` is); `none` is the panic for bounds out of range. -/
def slice {α : Type} (xs : List α) (low high : Int) : Option (List α) :=
  if 0 ≤ low ∧ low ≤ high ∧ high ≤ xs.length then
    some ((xs.drop low.toNat).take (high - low).toNat)
  else none

/-- The scrolling part of `DetailsModel.View` (lines 72-84) on a content of `n` lines: the
bounds `start` and `end` of the slice expression `lines[start:end]`, or `none` when the
condition `len(lines) > availableHeight` fails and no slice is taken. -/
def DetailsModel.window (m : DetailsModel) (height n : Int) : Option (Int × Int) :=
  let availableHeight := height - 6
  if n > availableHeight then
    let start := m.scrollOffset
    let end_ := start + availableHeight
    if end_ > n then
      let end_ := n
      let start := end_ - availableHeight
      if start < 0 then some (0, end_) else some (start, end_)
    else some (start, end_)
  else none

/-- The lines `DetailsModel.View` shows of the content; `none` is a panic. -/
def DetailsModel.visibleLines (m : DetailsModel) (height : Int) (lines : List String) :
    Option (List String) :=
  match m.window height lines.length with
  | none => some lines
  | some w => slice lines w.1 w.2

/-- The details states the program can be in. -/
inductive DetailsModel.Reachable : DetailsModel → Prop where
  | init : DetailsModel.Reachable NewDetailsModel
  | step (m : DetailsModel) (msg : Msg) :
      DetailsModel.Reachable m → DetailsModel.Reachable (m.Update msg).1

/-! ## The status line of the dashboard and timed sessions -/

/-- The loop of `DashboardModel.View` (lines 105-110): the number of agents whose status
is not EXPIRED. -/
def activeCount (agents : List Agent) : Int :=
  agents.foldl (fun count agent => if agent.Status != "EXPIRED" then count + 1 else count) 0

/-- The number `DashboardModel.View` prints in the status line (lines 112-119). -/
def DashboardModel.statusCount {T : Toolkit} (m : DashboardModel T) (agents : List Agent) :
    Int :=
  if m.showAll then (agents.length : Int) else activeCount agents

/-- Processes a list of events in order, each at its own clock reading; `none` when one
of them panics. -/
def Model.runTimed {T : Toolkit} (m : Model T) : List (Msg × Time) → Option (Model T)
  | [] => some m
  | e :: rest =>
    match m.Update e.1 e.2 with
    | some r => Model.runTimed r.1 rest
    | none => none

/-- The root state of the concrete toolkit after a running and an expired agent arrived. -/
def demoRefreshed : Model plainToolkit :=
  match (NewModel plainToolkit demoClient).Update
      (Msg.AgentsMsg [mkAgent "a1" "RUNNING", mkAgent "a2" "EXPIRED"]) 0 with
  | some r => r.1
  | none => NewModel plainToolkit demoClient

/-- Timed events of a session: a tick after 31 seconds, then the failure of the list
fetch it started. -/
def demoFailedRefresh : List (Msg × Time) :=
  [(Msg.TickMsg 0, 31 * Second), (Msg.ErrorMsg "timeout", 32 * Second)]

/-! ## `details.go`: word wrapping -/

/-- The maximal runs of characters that are not white space, on the characters of a text. -/
def fieldsChars (IsSpace : Char → Bool) (cs : List Char) : List (List Char) :=
  (cs.splitOnP IsSpace).filter (fun w => !w.isEmpty)

/-- The function `strings.Fields` of the Go library: the text is split around each run of
white space and the empty pieces are dropped; `IsSpace` is `unicode.IsSpace`. -/
def Fields (IsSpace : Char → Bool) (text : String) : List String :=
  (fieldsChars IsSpace text.data).map String.mk

/-- The loop of `wordWrap` over the words, from the state `lines`, `currentLine`; lengths
are byte lengths. -/
def wordWrapLoop (width : Int) : List String → List String → String → List String × String
  | [], lines, currentLine => (lines, currentLine)
  | word :: rest, lines, currentLine =>
    if currentLine.utf8ByteSize = 0 then
      wordWrapLoop width rest lines (currentLine ++ word)
    else if (currentLine.utf8ByteSize : Int) + (word.utf8ByteSize : Int) + 1 ≤ width then
      wordWrapLoop width rest lines (currentLine ++ (" " ++ word))
    else
      wordWrapLoop width rest (lines ++ [currentLine]) word

/-- The slice `lines` that `wordWrap` joins: the lines of the loop and the last line, when
it is not empty. -/
def wordWrapLines (words : List String) (width : Int) : List String :=
  let r := wordWrapLoop width words [] ""
  if r.2.utf8ByteSize > 0 then r.1 ++ [r.2] else r.1

/-- The method `wordWrap`. -/
def DetailsModel.wordWrap (_m : DetailsModel) (IsSpace : Char → Bool) (text : String)
    (width : Int) : String :=
  let words := Fields IsSpace text
  if words.length = 0 then text
  else String.intercalate "\n" (wordWrapLines words width)

/-- A word: not empty and without white space. -/
def IsWord (IsSpace : Char → Bool) (w : String) : Prop :=
  w.data ≠ [] ∧ ∀ c ∈ w.data, IsSpace c = false

/-- The state of the loop of `wordWrap` after the words `done`: nothing yet, or a current
line that is not empty, lines that are not empty, a text so far whose words are `done`,
and every line within the width or a single word. -/
def wordWrapInv (IsSpace : Char → Bool) (width : Int) (done lines : List String)
    (cur : String) : Prop :=
  (done = [] → lines = [] ∧ cur = "") ∧
  (done ≠ [] → cur ≠ "" ∧
    fieldsChars IsSpace (String.intercalate "\n" (lines ++ [cur])).data
      = done.map String.data ∧
    (∀ l ∈ lines, l ≠ "") ∧
    ∀ l ∈ lines ++ [cur], (l.utf8ByteSize : Int) ≤ width ∨ l ∈ done)

/-- White space for the examples: the blank and the line feed. -/
def demoIsSpace (c : Char) : Bool := c == ' ' || c == '\n'

/-! ## A table that clamps its cursor -/

/-- The clamp of a value between two bounds, computed as `min(max(v, low), high)`. -/
def clamp (v low high : Int) : Int := min (max v low) high

/-- A table whose down and up keys move the cursor by one row and clamp it between 0 and
the index of the last row; every other event is ignored. For a table without rows the index
of the last row is -1. -/
def PlainTable.clampUpdate (t : PlainTable) (msg : Msg) : PlainTable × List Nat :=
  match msg with
  | .KeyMsg k =>
    if k = "down" ∨ k = "j" then
      ({ t with cursor := clamp (t.cursor + 1) 0 ((t.rows.length : Int) - 1) }, [])
    else if k = "up" ∨ k = "k" then
      ({ t with cursor := clamp (t.cursor - 1) 0 ((t.rows.length : Int) - 1) }, [])
    else (t, [])
  | _ => (t, [])

/-- The concrete toolkit with the clamping table. -/
def clampToolkit : Toolkit := { plainToolkit with tableUpdate := PlainTable.clampUpdate }

/-! ## Auxiliary facts -/

/-- The loop of `updateTable` is a filter. -/
theorem keptAgents_eq_filter (showAll : Bool) (L : List Agent) :
    keptAgents showAll L = L.filter (fun a => showAll || a.Status != "EXPIRED") := by
  induction L with
  | nil => rfl
  | cons a rest ih =>
    cases showAll <;> by_cases h : a.Status = "EXPIRED" <;>
      simp [keptAgents, List.filter_cons, h, ih]

/-- No widget command is a closure of this package. -/
theorem send_not_mem_widgetCmd (msg : Msg) (ns : List Nat) :
    Cmd1.send msg ∉ widgetCmd ns := by
  simp [widgetCmd]

/-- On a list of agents the dashboard recomputes its lists and cannot panic. -/
theorem DashboardModel.Update_AgentsMsg {T : Toolkit} (m : DashboardModel T) (L : List Agent) :
    m.Update (Msg.AgentsMsg L) = some ((m.updateTable L).tableStep (Msg.AgentsMsg L)) := by
  simp [DashboardModel.Update]

/-! ## The agent list -/

/-- C1: for every root state, whatever view is active, and every agent list `L`,
`Model.Update` on `AgentsMsg L` returns a state whose agent list is `L`, whose error is
empty, whose `lastRefresh` is the current time and whose dashboard lists are recomputed from
`L` under the unchanged `showAll` flag; from the initial state, the list of an agent with
status RUNNING and one with status EXPIRED gives the filtered rows made of the first. -/
theorem C1_agents_fetched :
    (∀ (T : Toolkit) (m : Model T) (L : List Agent) (now : Time),
      ∃ m1 cmds, m.Update (Msg.AgentsMsg L) now = some (m1, cmds) ∧
        m1.agents = L ∧ m1.error = "" ∧ m1.lastRefresh = now ∧
        m1.currentView = m.currentView ∧
        m1.dashboard.showAll = m.dashboard.showAll ∧
        m1.dashboard.allAgents = L ∧
        m1.dashboard.filteredAgents = keptAgents m.dashboard.showAll L) ∧
    (∀ (T : Toolkit) (c : Client) (a1 a2 : Agent) (now : Time),
      ∃ m1 cmds,
        (NewModel T c).Update
          (Msg.AgentsMsg [{ a1 with Status := "RUNNING" }, { a2 with Status := "EXPIRED" }]) now
          = some (m1, cmds) ∧
        m1.dashboard.filteredAgents = [{ a1 with Status := "RUNNING" }]) := by
  have key : ∀ (T : Toolkit) (m : Model T) (L : List Agent) (now : Time),
      ∃ m1 cmds, m.Update (Msg.AgentsMsg L) now = some (m1, cmds) ∧
        m1.agents = L ∧ m1.error = "" ∧ m1.lastRefresh = now ∧
        m1.currentView = m.currentView ∧
        m1.dashboard.showAll = m.dashboard.showAll ∧
        m1.dashboard.allAgents = L ∧
        m1.dashboard.filteredAgents = keptAgents m.dashboard.showAll L := by
    intro T m L now
    cases hv : m.currentView <;>
      simp [Model.Update, Model.updateCurrentView, DashboardModel.Update_AgentsMsg, hv,
        DashboardModel.tableStep, DashboardModel.updateTable]
  refine ⟨key, ?_⟩
  intro T c a1 a2 now
  obtain ⟨m1, cmds, hu, -, -, -, -, -, -, hf⟩ := key T (NewModel T c)
    [{ a1 with Status := "RUNNING" }, { a2 with Status := "EXPIRED" }] now
  refine ⟨m1, cmds, hu, ?_⟩
  rw [hf]
  simp [NewModel, NewDashboardModel, keptAgents]

/-- C2: for every agent list `L` and every value of `showAll`, after `updateTable L` the
filtered list is `L` itself when `showAll` is set and otherwise the agents of `L`, in their
order, whose status is not the text EXPIRED; the stored list is `L`, the flag is unchanged
and the rows handed to the table are the rows of the filtered agents, one per agent. -/
theorem C2_updateTable_filter (T : Toolkit) (m : DashboardModel T) (L : List Agent) :
    (m.updateTable L).filteredAgents =
      (if m.showAll then L else L.filter (fun a => decide (a.Status ≠ "EXPIRED"))) ∧
    (m.updateTable L).allAgents = L ∧
    (m.updateTable L).showAll = m.showAll ∧
    (m.updateTable L).table =
      T.tableSetRows m.table ((m.updateTable L).filteredAgents.map T.rowCells) ∧
    ((m.updateTable L).filteredAgents.map T.rowCells).length =
      (m.updateTable L).filteredAgents.length := by
  refine ⟨?_, rfl, rfl, rfl, List.length_map _ _⟩
  cases hs : m.showAll
  · simp only [DashboardModel.updateTable, keptAgents_eq_filter, hs]
    simp
    congr 1
  · simp [DashboardModel.updateTable, keptAgents_eq_filter, hs]

/-! ## Toggling the filter -/

/-- A binding with one key matches exactly that key. -/
theorem Matches_single (k x : String) : Matches k (NewBinding [x]) = decide (k = x) := by
  by_cases h : k = x <;> simp [Matches, NewBinding, Binding.Enabled, h]

/-- The toggle key flips the flag and recomputes the lists from the stored agents. -/
theorem DashboardModel.Update_toggle {T : Toolkit} (m : DashboardModel T) :
    m.Update (Msg.KeyMsg "t") =
      some ((({ m with showAll := !m.showAll } : DashboardModel T).updateTable
        m.allAgents).tableStep (Msg.KeyMsg "t")) := by
  simp [DashboardModel.Update, Matches_single]

/-- In every reachable dashboard state the filtered list is the filter of the stored list. -/
theorem DashboardModel.Reachable.filtered {T : Toolkit} {m : DashboardModel T}
    (h : m.Reachable) : m.filteredAgents = keptAgents m.showAll m.allAgents := by
  induction h with
  | init => rfl
  | step m m1 msg cmd _ hstep ih =>
    cases msg with
    | KeyMsg k =>
      simp only [DashboardModel.Update, Matches_single] at hstep
      by_cases ht : k = "t"
      · simp [ht, DashboardModel.tableStep, DashboardModel.updateTable] at hstep
        obtain ⟨rfl, -⟩ := hstep
        rfl
      · by_cases he : k = "enter"
        · subst he
          have hne : ("enter" : String) ≠ "t" := by decide
          simp only [hne, decide_True, decide_False, if_true, Bool.false_eq_true, if_false]
            at hstep
          by_cases hlt : T.tableCursor m.table < (m.filteredAgents.length : Int)
          · simp only [hlt, if_true] at hstep
            cases hi : index m.filteredAgents (T.tableCursor m.table) with
            | none => simp [hi] at hstep
            | some a =>
              simp [hi] at hstep
              obtain ⟨rfl, -⟩ := hstep
              exact ih
          · simp [hlt, DashboardModel.tableStep] at hstep
            obtain ⟨rfl, -⟩ := hstep
            exact ih
        · simp [ht, he, DashboardModel.tableStep] at hstep
          obtain ⟨rfl, -⟩ := hstep
          exact ih
    | AgentsMsg L =>
      simp [DashboardModel.Update, DashboardModel.tableStep, DashboardModel.updateTable] at hstep
      obtain ⟨rfl, -⟩ := hstep
      rfl
    | WindowSizeMsg w h0 | ConversationMsg c | ErrorMsg e | TickMsg t | AgentSelectedMsg a
    | FollowupSentMsg a b | Other n =>
      simp [DashboardModel.Update, DashboardModel.tableStep] at hstep
      obtain ⟨rfl, -⟩ := hstep
      exact ih

/-- C3: in every dashboard state the program can reach, pressing the toggle key twice
(two applications of `DashboardModel.Update`) flips `showAll` and flips it back, returns the
filtered list the state had before the two key presses and leaves `allAgents` unchanged. -/
theorem C3_toggle_twice (T : Toolkit) (m : DashboardModel T) (h : m.Reachable) :
    ∃ m1 c1 m2 c2,
      m.Update (Msg.KeyMsg "t") = some (m1, c1) ∧
      m1.Update (Msg.KeyMsg "t") = some (m2, c2) ∧
      m1.showAll = !m.showAll ∧
      m2.showAll = m.showAll ∧
      m2.filteredAgents = m.filteredAgents ∧
      m2.allAgents = m.allAgents := by
  refine ⟨_, _, _, _, m.Update_toggle, DashboardModel.Update_toggle _, ?_, ?_, ?_, ?_⟩
  · simp [DashboardModel.tableStep, DashboardModel.updateTable]
  · simp [DashboardModel.tableStep, DashboardModel.updateTable]
  · rw [h.filtered]
    simp [DashboardModel.tableStep, DashboardModel.updateTable]
  · simp [DashboardModel.tableStep, DashboardModel.updateTable]

theorem demoDashboard_reachable : demoDashboard.Reachable :=
  DashboardModel.Reachable.step (NewDashboardModel plainToolkit) demoDashboard
    (Msg.AgentsMsg [mkAgent "a1" "RUNNING", mkAgent "a2" "EXPIRED"]) _
    DashboardModel.Reachable.init (DashboardModel.Update_AgentsMsg _ _)

/-- C3 at the dashboard holding a running and an expired agent. -/
theorem C3_toggle_twice_witness :
    demoDashboard.Reachable ∧
    ∃ m1 c1 m2 c2,
      demoDashboard.Update (Msg.KeyMsg "t") = some (m1, c1) ∧
      m1.Update (Msg.KeyMsg "t") = some (m2, c2) ∧
      m1.showAll = !demoDashboard.showAll ∧
      m2.showAll = demoDashboard.showAll ∧
      m2.filteredAgents = demoDashboard.filteredAgents ∧
      m2.allAgents = demoDashboard.allAgents :=
  ⟨demoDashboard_reachable, C3_toggle_twice plainToolkit demoDashboard demoDashboard_reachable⟩

/-! ## The sub-views only return local commands -/

theorem widgetCmd_isLocal (ns : List Nat) : ∀ x ∈ widgetCmd ns, x.isLocal = true := by
  intro x hx
  simp only [widgetCmd, List.mem_map] at hx
  obtain ⟨n, -, rfl⟩ := hx
  rfl

theorem count_eq_zero_of_isLocal {extra : Cmd} (h : ∀ x ∈ extra, x.isLocal = true)
    (y : Cmd1) (hy : y.isLocal = false) : extra.count y = 0 := by
  apply List.count_eq_zero_of_not_mem
  intro hmem
  rw [h y hmem] at hy
  exact absurd hy (by decide)

theorem index_of_lt {α : Type} (xs : List α) (i : Int) (h0 : 0 ≤ i) (h : i.toNat < xs.length) :
    index xs i = some (xs.get ⟨i.toNat, h⟩) := by
  have : ¬ i < 0 := by omega
  simp [index, this, List.getElem?_eq_getElem h]

theorem DashboardModel.tableStep_isLocal {T : Toolkit} (m : DashboardModel T) (msg : Msg) :
    ∀ x ∈ (m.tableStep msg).2, x.isLocal = true := by
  simpa [DashboardModel.tableStep] using widgetCmd_isLocal _

/-- The dashboard panics only on Enter with a negative cursor; the commands it returns are
local. -/
theorem DashboardModel.Update_defined {T : Toolkit} (m : DashboardModel T) (msg : Msg)
    (h : msg = Msg.KeyMsg "enter" → 0 ≤ T.tableCursor m.table) :
    ∃ m1 cmd, m.Update msg = some (m1, cmd) ∧ ∀ x ∈ cmd, x.isLocal = true := by
  cases msg with
  | KeyMsg k =>
    by_cases ht : k = "t"
    · subst ht
      exact ⟨_, _, m.Update_toggle, DashboardModel.tableStep_isLocal _ _⟩
    · by_cases he : k = "enter"
      · subst he
        have h0 := h rfl
        have hne : ("enter" : String) ≠ "t" := by decide
        by_cases hlt : T.tableCursor m.table < (m.filteredAgents.length : Int)
        · have hlt2 : (T.tableCursor m.table).toNat < m.filteredAgents.length := by omega
          refine ⟨m, [Cmd1.send (Msg.AgentSelectedMsg (m.filteredAgents.get ⟨_, hlt2⟩))], ?_, ?_⟩
          · simp [DashboardModel.Update, Matches_single, hne, hlt, index_of_lt _ _ h0 hlt2]
          · intro x hx
            simp only [List.mem_singleton] at hx
            subst hx
            rfl
        · refine ⟨(m.tableStep (Msg.KeyMsg "enter")).1, (m.tableStep (Msg.KeyMsg "enter")).2,
            ?_, DashboardModel.tableStep_isLocal _ _⟩
          simp [DashboardModel.Update, Matches_single, hne, hlt]
      · refine ⟨(m.tableStep (Msg.KeyMsg k)).1, (m.tableStep (Msg.KeyMsg k)).2,
          ?_, DashboardModel.tableStep_isLocal _ _⟩
        simp [DashboardModel.Update, Matches_single, ht, he]
  | AgentsMsg L =>
    exact ⟨_, _, m.Update_AgentsMsg L, DashboardModel.tableStep_isLocal _ _⟩
  | WindowSizeMsg w h0 | ConversationMsg c | ErrorMsg e | TickMsg t | AgentSelectedMsg a
  | FollowupSentMsg a b | Other n =>
    exact ⟨(m.tableStep _).1, (m.tableStep _).2, rfl, DashboardModel.tableStep_isLocal _ _⟩

theorem DashboardModel.Update_cmd_isLocal {T : Toolkit} {m m1 : DashboardModel T} {msg : Msg}
    {cmd : Cmd} (h : m.Update msg = some (m1, cmd)) : ∀ x ∈ cmd, x.isLocal = true := by
  by_cases hc : msg = Msg.KeyMsg "enter" → 0 ≤ T.tableCursor m.table
  · obtain ⟨m2, cmd2, h2, hl⟩ := m.Update_defined msg hc
    rw [h2] at h
    simp only [Option.some.injEq, Prod.mk.injEq] at h
    obtain ⟨-, rfl⟩ := h
    exact hl
  · exfalso
    push_neg at hc
    obtain ⟨rfl, hneg⟩ := hc
    have hne : ("enter" : String) ≠ "t" := by decide
    have hlt : T.tableCursor m.table < (m.filteredAgents.length : Int) := by omega
    simp [DashboardModel.Update, Matches_single, hne, hlt, index, hneg] at h

theorem DetailsModel.Update_cmd_nil (m : DetailsModel) (msg : Msg) : (m.Update msg).2 = [] := by
  cases msg <;> simp only [DetailsModel.Update]
  split_ifs <;> rfl

theorem SettingsModel.Update_returns_nil (m : SettingsModel) (msg : Msg) : (m.Update msg).2 = [] := by
  cases msg <;> simp only [SettingsModel.Update]
  split_ifs <;> rfl

theorem ConversationModel.Update_cmd_local {T : Toolkit} (m : ConversationModel T) (msg : Msg) :
    ∀ x ∈ (m.Update msg).2, x.isLocal = true := by
  simpa [ConversationModel.Update] using widgetCmd_isLocal _

theorem FollowupModel.inputStep_isLocal {T : Toolkit} (m : FollowupModel T) (msg : Msg) :
    ∀ x ∈ (m.inputStep msg).2, x.isLocal = true := by
  unfold FollowupModel.inputStep
  split
  · simpa using widgetCmd_isLocal _
  · simpa using widgetCmd_isLocal _

theorem FollowupModel.sendMessage_isLocal {T : Toolkit} (m : FollowupModel T) (s : String) :
    ∀ x ∈ m.sendMessage s, x.isLocal = true := by
  intro x hx
  simp only [FollowupModel.sendMessage, List.mem_singleton] at hx
  subst hx
  rfl

theorem FollowupModel.Update_local {T : Toolkit} (m : FollowupModel T) (msg : Msg) :
    ∀ x ∈ (m.Update msg).2, x.isLocal = true := by
  cases msg with
  | KeyMsg k =>
    simp only [FollowupModel.Update]
    split_ifs <;> first
      | exact FollowupModel.inputStep_isLocal _ _
      | exact FollowupModel.sendMessage_isLocal m _
  | WindowSizeMsg w h0 | ConversationMsg c | ErrorMsg e | TickMsg t | AgentSelectedMsg a
  | FollowupSentMsg a b | Other n | AgentsMsg L =>
    simp only [FollowupModel.Update]
    exact FollowupModel.inputStep_isLocal _ _

/-! ## The active view's step -/

/-- The active view's step replaces sub-view states only, and appends local commands. -/
theorem Model.updateCurrentView_some {T : Toolkit} {m : Model T} {msg : Msg} {cmds : Cmd}
    {r : Model T × Cmd} (h : m.updateCurrentView msg cmds = some r) :
    ∃ d de co fo se he extra,
      r = ({ m with dashboard := d, details := de, conversationModel := co, followup := fo,
                    settings := se, help := he }, cmds ++ extra) ∧
      ∀ x ∈ extra, x.isLocal = true := by
  unfold Model.updateCurrentView at h
  split at h
  · cases hd : m.dashboard.Update msg with
    | none => simp [hd] at h
    | some p =>
      obtain ⟨d, cmd⟩ := p
      simp only [hd, Option.some.injEq] at h
      exact ⟨d, m.details, m.conversationModel, m.followup, m.settings, m.help, cmd, h.symm,
        DashboardModel.Update_cmd_isLocal hd⟩
  · simp only [Option.some.injEq] at h
    exact ⟨m.dashboard, (m.details.Update msg).1, m.conversationModel, m.followup, m.settings,
      m.help, (m.details.Update msg).2, h.symm, by simp [DetailsModel.Update_cmd_nil]⟩
  · simp only [Option.some.injEq] at h
    exact ⟨m.dashboard, m.details, (m.conversationModel.Update msg).1, m.followup, m.settings,
      m.help, (m.conversationModel.Update msg).2, h.symm, ConversationModel.Update_cmd_local _ _⟩
  · simp only [Option.some.injEq] at h
    exact ⟨m.dashboard, m.details, m.conversationModel, (m.followup.Update msg).1, m.settings,
      m.help, (m.followup.Update msg).2, h.symm, FollowupModel.Update_local _ _⟩
  · simp only [Option.some.injEq] at h
    exact ⟨m.dashboard, m.details, m.conversationModel, m.followup, (m.settings.Update msg).1,
      m.help, (m.settings.Update msg).2, h.symm, by simp [SettingsModel.Update_returns_nil]⟩
  · simp only [Option.some.injEq] at h
    exact ⟨m.dashboard, m.details, m.conversationModel, m.followup, m.settings,
      (m.help.Update msg).1, (m.help.Update msg).2, h.symm, by simp [HelpModel.Update]⟩

/-- The active view's step returns, unless the dashboard is active, the event is Enter and
the table cursor is negative. -/
theorem Model.updateCurrentView_defined {T : Toolkit} (m : Model T) (msg : Msg) (cmds : Cmd)
    (h : m.currentView = DashboardView → msg = Msg.KeyMsg "enter" →
      0 ≤ T.tableCursor m.dashboard.table) :
    ∃ r, m.updateCurrentView msg cmds = some r := by
  unfold Model.updateCurrentView
  split
  · rename_i hv
    obtain ⟨d, cmd, hd, -⟩ := m.dashboard.Update_defined msg (h hv)
    rw [hd]
    exact ⟨_, rfl⟩
  all_goals exact ⟨_, rfl⟩

/-- The two previous facts together. -/
theorem Model.updateCurrentView_spec {T : Toolkit} (m : Model T) (msg : Msg) (cmds : Cmd)
    (h : m.currentView = DashboardView → msg = Msg.KeyMsg "enter" →
      0 ≤ T.tableCursor m.dashboard.table) :
    ∃ d de co fo se he extra,
      m.updateCurrentView msg cmds =
        some ({ m with dashboard := d, details := de, conversationModel := co, followup := fo,
                       settings := se, help := he }, cmds ++ extra) ∧
      ∀ x ∈ extra, x.isLocal = true := by
  obtain ⟨r, hr⟩ := m.updateCurrentView_defined msg cmds h
  obtain ⟨d, de, co, fo, se, he, extra, rfl, hl⟩ := Model.updateCurrentView_some hr
  exact ⟨d, de, co, fo, se, he, extra, hr, hl⟩

/-! ## Navigation guards -/

/-- For every root state without a selected agent (default key bindings), the Details key,
the Conversation key, the Followup key and Enter return, leave `currentView` and the absent
selection unchanged, and no get-conversation command is among the commands returned;
for Enter on the dashboard provided the table cursor is not negative. -/
theorem Model.Update_no_agent_noop (T : Toolkit) (m : Model T) (k : String) (now : Time)
    (hkm : m.keyMap = DefaultKeyMap) (hsel : m.selectedAgent = none)
    (hk : k = "d" ∨ k = "c" ∨ k = "f" ∨ k = "enter")
    (hcur : k = "enter" → m.currentView = DashboardView → 0 ≤ T.tableCursor m.dashboard.table) :
    ∃ m1 cmds, m.Update (Msg.KeyMsg k) now = some (m1, cmds) ∧
      m1.currentView = m.currentView ∧ m1.selectedAgent = none ∧
      ∀ c id, Cmd1.fetchConversation c id ∉ cmds := by
  have hstep : m.Update (Msg.KeyMsg k) now = m.updateCurrentView (Msg.KeyMsg k) [] := by
    rcases hk with rfl | rfl | rfl | rfl <;>
      simp [Model.Update, hkm, hsel, DefaultKeyMap, Matches, NewBinding, Binding.Enabled]
  obtain ⟨d, de, co, fo, se, he, extra, hr, hl⟩ :=
    m.updateCurrentView_spec (Msg.KeyMsg k) [] (fun hv hmsg => hcur (by simpa using hmsg) hv)
  refine ⟨_, _, hstep.trans hr, rfl, hsel, ?_⟩
  intro c id hmem
  simp only [List.nil_append] at hmem
  exact absurd (hl _ hmem) (by simp [Cmd1.isLocal])

/-- The previous fact at the initial state of the concrete toolkit, for Enter on the
dashboard. -/
theorem Model.Update_no_agent_noop_start :
    ∃ m1 cmds, (NewModel plainToolkit demoClient).Update (Msg.KeyMsg "enter") 0
        = some (m1, cmds) ∧
      m1.currentView = (NewModel plainToolkit demoClient).currentView ∧
      m1.selectedAgent = none ∧
      ∀ c id, Cmd1.fetchConversation c id ∉ cmds :=
  Model.Update_no_agent_noop plainToolkit (NewModel plainToolkit demoClient) "enter" 0 rfl rfl
    (Or.inr (Or.inr (Or.inr rfl))) (fun _ _ => Int.le_refl 0)

/-- Enter on the dashboard without a selected agent and with a negative table cursor: the
guard `selectedRow < len(m.filteredAgents)` holds, the index expression panics and
`Update` does not return. This is so for every toolkit (default key bindings). -/
theorem Model.Update_enter_negative_cursor {T : Toolkit} (m : Model T) (now : Time)
    (hkm : m.keyMap = DefaultKeyMap) (hsel : m.selectedAgent = none)
    (hv : m.currentView = DashboardView) (hc : T.tableCursor m.dashboard.table < 0) :
    m.Update (Msg.KeyMsg "enter") now = none := by
  have hstep : m.Update (Msg.KeyMsg "enter") now =
      m.updateCurrentView (Msg.KeyMsg "enter") [] := by
    simp [Model.Update, hkm, hsel, DefaultKeyMap, Matches, NewBinding, Binding.Enabled]
  have hlt : T.tableCursor m.dashboard.table < (m.dashboard.filteredAgents.length : Int) := by
    have h0 : (0 : Int) ≤ (m.dashboard.filteredAgents.length : Int) := Int.ofNat_nonneg _
    omega
  rw [hstep]
  simp [Model.updateCurrentView, hv, DashboardModel.Update, Matches, NewBinding,
    Binding.Enabled, hlt, index, hc]

/-- C4: a session in which the claim fails. The table clamps its cursor between 0 and the
index of the last row. The program starts, no agent has arrived and none is selected; the
down key moves the cursor of the empty table to -1. Enter on the dashboard then passes the
guard `selectedRow < len(m.filteredAgents)` and the index expression panics: `Update` does
not return, so there is no state whose view is the unchanged one. The keys d, c and f
return at this state and leave the view as it is. -/
theorem C4_enter_panics_on_empty_table :
    ∃ m : Model clampToolkit,
      (NewModel clampToolkit demoClient).run 0 [Msg.KeyMsg "down"] = some m ∧
      m.keyMap = DefaultKeyMap ∧ m.selectedAgent = none ∧
      m.currentView = DashboardView ∧ m.dashboard.filteredAgents = [] ∧
      clampToolkit.tableCursor m.dashboard.table = -1 ∧
      m.Update (Msg.KeyMsg "enter") 0 = none ∧
      (∃ m1, m.Update (Msg.KeyMsg "d") 0 = some (m1, []) ∧ m1.currentView = DashboardView) ∧
      (∃ m1, m.Update (Msg.KeyMsg "c") 0 = some (m1, []) ∧ m1.currentView = DashboardView) ∧
      (∃ m1, m.Update (Msg.KeyMsg "f") 0 = some (m1, []) ∧ m1.currentView = DashboardView) :=
  ⟨_, rfl, rfl, rfl, rfl, rfl, rfl, rfl, ⟨_, rfl, rfl⟩, ⟨_, rfl, rfl⟩, ⟨_, rfl, rfl⟩⟩

/-- C5: for every root state with a selected agent (default key bindings), the Followup key
sets `currentView` to `FollowupView` when the agent's status is the text RUNNING and leaves
`currentView` unchanged for every other status; so, from any other view, the view becomes
`FollowupView` if and only if the status is RUNNING. -/
theorem C5_followup_guard (T : Toolkit) (m : Model T) (a : Agent) (now : Time)
    (hkm : m.keyMap = DefaultKeyMap) (hsel : m.selectedAgent = some a) :
    ∃ m1 cmds, m.Update (Msg.KeyMsg "f") now = some (m1, cmds) ∧
      (a.Status = "RUNNING" → m1.currentView = FollowupView) ∧
      (a.Status ≠ "RUNNING" → m1.currentView = m.currentView) ∧
      (m.currentView ≠ FollowupView →
        (m1.currentView = FollowupView ↔ a.Status = "RUNNING")) := by
  have hne : ∀ (x : Model T), x.currentView = DashboardView →
      Msg.KeyMsg "f" = Msg.KeyMsg "enter" → 0 ≤ T.tableCursor x.dashboard.table := by
    intro x _ hmsg
    exact absurd hmsg (by decide)
  by_cases hs : a.Status = "RUNNING"
  · have hstep : m.Update (Msg.KeyMsg "f") now =
        ({ m with currentView := FollowupView } : Model T).updateCurrentView
          (Msg.KeyMsg "f") [] := by
      simp [Model.Update, hkm, hsel, hs, DefaultKeyMap, Matches, NewBinding, Binding.Enabled]
    obtain ⟨d, de, co, fo, se, he, extra, hr, -⟩ :=
      Model.updateCurrentView_spec ({ m with currentView := FollowupView } : Model T)
        (Msg.KeyMsg "f") [] (hne _)
    exact ⟨_, _, hstep.trans hr, fun _ => rfl, fun h => absurd hs h, fun _ => ⟨fun _ => hs, fun _ => rfl⟩⟩
  · have hstep : m.Update (Msg.KeyMsg "f") now = m.updateCurrentView (Msg.KeyMsg "f") [] := by
      simp [Model.Update, hkm, hsel, hs, DefaultKeyMap, Matches, NewBinding, Binding.Enabled]
    obtain ⟨d, de, co, fo, se, he, extra, hr, -⟩ :=
      m.updateCurrentView_spec (Msg.KeyMsg "f") [] (hne _)
    exact ⟨_, _, hstep.trans hr, fun h => absurd h hs, fun _ => rfl,
      fun hv => ⟨fun h => absurd h hv, fun h => absurd h hs⟩⟩

/-- C5 at a state whose selected agent has the lower-case status running. -/
theorem C5_followup_guard_witness :
    (demoSelected "running").keyMap = DefaultKeyMap ∧
    (demoSelected "running").selectedAgent = some (mkAgent "a1" "running") ∧
    ∃ m1 cmds, (demoSelected "running").Update (Msg.KeyMsg "f") 0 = some (m1, cmds) ∧
      ((mkAgent "a1" "running").Status = "RUNNING" → m1.currentView = FollowupView) ∧
      ((mkAgent "a1" "running").Status ≠ "RUNNING" →
        m1.currentView = (demoSelected "running").currentView) ∧
      ((demoSelected "running").currentView ≠ FollowupView →
        (m1.currentView = FollowupView ↔ (mkAgent "a1" "running").Status = "RUNNING")) :=
  ⟨rfl, rfl, C5_followup_guard plainToolkit (demoSelected "running") (mkAgent "a1" "running") 0
    rfl rfl⟩

/-! ## Selection -/

/-- C9: for every root state and every agent `a`, `Model.Update` on `AgentSelectedMsg a`
returns a state with `selectedAgent = a` and `currentView = AgentDetailsView`, with the agent
list, the conversation, the error and `lastRefresh` unchanged, and returns no command. -/
theorem C9_agent_selected (T : Toolkit) (m : Model T) (a : Agent) (now : Time) :
    ∃ m1, m.Update (Msg.AgentSelectedMsg a) now = some (m1, []) ∧
      m1.selectedAgent = some a ∧ m1.currentView = AgentDetailsView ∧
      m1.agents = m.agents ∧ m1.conversation = m.conversation ∧
      m1.error = m.error ∧ m1.lastRefresh = m.lastRefresh := by
  simp [Model.Update, Model.updateCurrentView, DetailsModel.Update]

/-! ## Refresh scheduling -/

/-- The saturation of `time.Since` does not change the comparison with thirty seconds. -/
theorem Since_gt_iff (now t : Time) : Since now t > 30 * Second ↔ now - t > 30 * Second := by
  unfold Since maxDuration minDuration Second
  have h63 : (2 : Int) ^ 63 = 9223372036854775808 := by norm_num
  rw [h63]
  split_ifs <;> constructor <;> intro h <;> linarith

/-- The commands a tick returns: the list-agents command when the refresh is due, then the
ticker, then local commands of the active view. -/
theorem Model.Update_TickMsg {T : Toolkit} (m : Model T) (t now : Time) :
    ∃ m1 extra, (∀ x ∈ extra, x.isLocal = true) ∧
      m.Update (Msg.TickMsg t) now =
        some (m1, (if m.autoRefresh = true ∧ now - m.lastRefresh > 30 * Second
                   then [Cmd1.fetchAgents m.client] else []) ++ [Cmd1.tickCmd] ++ extra) := by
  obtain ⟨d, de, co, fo, se, he, extra, hr, hl⟩ :=
    m.updateCurrentView_spec (Msg.TickMsg t)
      ((if m.autoRefresh = true ∧ now - m.lastRefresh > 30 * Second
        then [Cmd1.fetchAgents m.client] else []) ++ [Cmd1.tickCmd])
      (fun _ hmsg => absurd hmsg (by simp))
  refine ⟨{ m with dashboard := d, details := de, conversationModel := co, followup := fo,
                   settings := se, help := he }, extra, hl, ?_⟩
  rw [← hr]
  simp only [Model.Update, Model.fetchAgents, Model.tickCmd, Since_gt_iff, List.nil_append]

/-- C6: for every root state and current time, `Model.Update` on a tick returns commands
among which a list-agents command occurs if and only if `autoRefresh` is set and
`now - lastRefresh` is strictly greater than thirty seconds (it is then the one of the
state's client, once), and among which the command re-arming the one-second ticker occurs
exactly once. With `autoRefresh` set, 31 seconds give the list-agents command, 10 seconds
and exactly 30 seconds do not. -/
theorem C6_tick_refresh (T : Toolkit) (m : Model T) (t now : Time) :
    (∃ m1 cmds, m.Update (Msg.TickMsg t) now = some (m1, cmds) ∧
      (∀ c, Cmd1.fetchAgents c ∈ cmds ↔
        (c = m.client ∧ m.autoRefresh = true ∧ now - m.lastRefresh > 30 * Second)) ∧
      cmds.count (Cmd1.fetchAgents m.client) =
        (if m.autoRefresh = true ∧ now - m.lastRefresh > 30 * Second then 1 else 0) ∧
      cmds.count Cmd1.tickCmd = 1) ∧
    (∃ m1 cmds, ({ m with autoRefresh := true, lastRefresh := now - 31 * Second } :
        Model T).Update (Msg.TickMsg t) now = some (m1, cmds) ∧
      Cmd1.fetchAgents m.client ∈ cmds) ∧
    (∃ m1 cmds, ({ m with autoRefresh := true, lastRefresh := now - 10 * Second } :
        Model T).Update (Msg.TickMsg t) now = some (m1, cmds) ∧
      ∀ c, Cmd1.fetchAgents c ∉ cmds) ∧
    (∃ m1 cmds, ({ m with autoRefresh := true, lastRefresh := now - 30 * Second } :
        Model T).Update (Msg.TickMsg t) now = some (m1, cmds) ∧
      ∀ c, Cmd1.fetchAgents c ∉ cmds) := by
  have key : ∀ (m : Model T), ∃ m1 cmds, m.Update (Msg.TickMsg t) now = some (m1, cmds) ∧
      (∀ c, Cmd1.fetchAgents c ∈ cmds ↔
        (c = m.client ∧ m.autoRefresh = true ∧ now - m.lastRefresh > 30 * Second)) ∧
      cmds.count (Cmd1.fetchAgents m.client) =
        (if m.autoRefresh = true ∧ now - m.lastRefresh > 30 * Second then 1 else 0) ∧
      cmds.count Cmd1.tickCmd = 1 := by
    intro m
    obtain ⟨m1, extra, hl, hu⟩ := m.Update_TickMsg t now
    have hloc : ∀ c, Cmd1.fetchAgents c ∉ extra := fun c hmem =>
      absurd (hl _ hmem) (by simp [Cmd1.isLocal])
    have hc1 := count_eq_zero_of_isLocal hl (Cmd1.fetchAgents m.client) rfl
    have hc2 := count_eq_zero_of_isLocal hl Cmd1.tickCmd rfl
    refine ⟨m1, _, hu, ?_, ?_, ?_⟩
    · intro c
      by_cases hcond : m.autoRefresh = true ∧ now - m.lastRefresh > 30 * Second
      · simp only [hcond, and_self, if_true, List.mem_append, List.mem_singleton, and_true,
          hloc c, or_false]
        constructor
        · rintro (h | h)
          · exact Cmd1.fetchAgents.inj h
          · exact absurd h (by simp)
        · rintro rfl
          exact Or.inl rfl
      · simp only [hcond, if_false, List.nil_append, List.mem_append, List.mem_singleton,
          hloc c, or_false, and_false, iff_false]
        simp
    · by_cases hcond : m.autoRefresh = true ∧ now - m.lastRefresh > 30 * Second
      · simp [hcond, List.count_append, hc1]
      · simp [hcond, List.count_append, hc1]
    · by_cases hcond : m.autoRefresh = true ∧ now - m.lastRefresh > 30 * Second
      · simp [hcond, List.count_append, hc2]
      · simp [hcond, List.count_append, hc2]
  refine ⟨key m, ?_, ?_, ?_⟩
  · obtain ⟨m1, cmds, hu, hiff, -, -⟩ :=
      key ({ m with autoRefresh := true, lastRefresh := now - 31 * Second } : Model T)
    refine ⟨m1, cmds, hu, (hiff m.client).2 ⟨rfl, rfl, ?_⟩⟩
    show now - (now - 31 * Second) > 30 * Second
    unfold Second
    linarith
  · obtain ⟨m1, cmds, hu, hiff, -, -⟩ :=
      key ({ m with autoRefresh := true, lastRefresh := now - 10 * Second } : Model T)
    refine ⟨m1, cmds, hu, fun c hmem => ?_⟩
    have h := ((hiff c).1 hmem).2.2
    change now - (now - 10 * Second) > 30 * Second at h
    unfold Second at h
    linarith
  · obtain ⟨m1, cmds, hu, hiff, -, -⟩ :=
      key ({ m with autoRefresh := true, lastRefresh := now - 30 * Second } : Model T)
    refine ⟨m1, cmds, hu, fun c hmem => ?_⟩
    have h := ((hiff c).1 hmem).2.2
    change now - (now - 30 * Second) > 30 * Second at h
    unfold Second at h
    linarith

/-! ## Selecting a row -/

/-- Enter with the cursor on a row of the filtered list returns the closure carrying the
agent of that row, and the unchanged state. -/
theorem DashboardModel.Update_enter_lt {T : Toolkit} (m : DashboardModel T)
    (hc : 0 ≤ T.tableCursor m.table)
    (h : (T.tableCursor m.table).toNat < m.filteredAgents.length) :
    m.Update (Msg.KeyMsg "enter") =
      some (m, [Cmd1.send (Msg.AgentSelectedMsg
        (m.filteredAgents.get ⟨(T.tableCursor m.table).toNat, h⟩))]) := by
  have hne : ("enter" : String) ≠ "t" := by decide
  have hlt : T.tableCursor m.table < (m.filteredAgents.length : Int) := by omega
  simp [DashboardModel.Update, Matches_single, hne, hlt, index_of_lt _ _ hc h]

/-- Enter with the cursor past the filtered list only lets the table process the key. -/
theorem DashboardModel.Update_enter_ge {T : Toolkit} (m : DashboardModel T)
    (h : (m.filteredAgents.length : Int) ≤ T.tableCursor m.table) :
    m.Update (Msg.KeyMsg "enter") = some (m.tableStep (Msg.KeyMsg "enter")) := by
  have hne : ("enter" : String) ≠ "t" := by decide
  have hlt : ¬ T.tableCursor m.table < (m.filteredAgents.length : Int) := by omega
  simp [DashboardModel.Update, Matches_single, hne, hlt]

/-- C8: for every dashboard state whose table cursor `c` is not negative,
`DashboardModel.Update` on Enter returns, when `c` is below the length of the filtered list,
the unchanged state and the single command producing `AgentSelectedMsg` with the `c`-th
agent of the filtered list; when `c` is at or past that length it returns a state and
commands none of which produces a selection event. In both cases it returns, so the lookup
is in range. -/
theorem C8_enter_selects_filtered (T : Toolkit) (m : DashboardModel T)
    (hc : 0 ≤ T.tableCursor m.table) :
    (∀ h : (T.tableCursor m.table).toNat < m.filteredAgents.length,
      m.Update (Msg.KeyMsg "enter") =
        some (m, [Cmd1.send (Msg.AgentSelectedMsg
          (m.filteredAgents.get ⟨(T.tableCursor m.table).toNat, h⟩))])) ∧
    ((m.filteredAgents.length : Int) ≤ T.tableCursor m.table →
      ∃ m1 cmds, m.Update (Msg.KeyMsg "enter") = some (m1, cmds) ∧
        ∀ a, Cmd1.send (Msg.AgentSelectedMsg a) ∉ cmds) := by
  refine ⟨fun h => m.Update_enter_lt hc h, fun h => ?_⟩
  refine ⟨_, _, m.Update_enter_ge h, fun a => ?_⟩
  simpa [DashboardModel.tableStep] using send_not_mem_widgetCmd _ _

/-- C8 at a dashboard whose stored list starts with an expired agent: the cursor is on row 0
and the agent selected is the first of the filtered list, not the first of the stored one. -/
theorem C8_enter_selects_filtered_witness :
    0 ≤ plainToolkit.tableCursor demoDashboardExpiredFirst.table ∧
    demoDashboardExpiredFirst.allAgents = [mkAgent "a2" "EXPIRED", mkAgent "a1" "RUNNING"] ∧
    demoDashboardExpiredFirst.Update (Msg.KeyMsg "enter") =
      some (demoDashboardExpiredFirst,
        [Cmd1.send (Msg.AgentSelectedMsg (mkAgent "a1" "RUNNING"))]) :=
  ⟨Int.le_refl 0, rfl,
    (C8_enter_selects_filtered plainToolkit demoDashboardExpiredFirst (Int.le_refl 0)).1
      (by decide)⟩

/-- With a selected agent, Enter on the dashboard is consumed by the root: the view becomes
the details view before the active view is stepped, so the dashboard never receives the key,
no command is returned and the selection stays what it was. -/
theorem Model.Update_enter_selected {T : Toolkit} (m : Model T) (b : Agent) (now : Time)
    (hkm : m.keyMap = DefaultKeyMap) (hv : m.currentView = DashboardView)
    (hsel : m.selectedAgent = some b) :
    ∃ m1, m.Update (Msg.KeyMsg "enter") now = some (m1, []) ∧
      m1.currentView = AgentDetailsView ∧ m1.selectedAgent = some b ∧
      m1.dashboard = m.dashboard := by
  simp [Model.Update, Model.updateCurrentView, DetailsModel.Update, hkm, hv, hsel,
    DefaultKeyMap, Matches, NewBinding, Binding.Enabled]

/-- Without a selected agent, Enter on the dashboard reaches the dashboard, and processing
the selection event it produces selects the agent under the cursor and opens the details. -/
theorem Model.press_enter_unselected {T : Toolkit} (m : Model T) (now : Time)
    (hkm : m.keyMap = DefaultKeyMap) (hv : m.currentView = DashboardView)
    (hsel : m.selectedAgent = none) (hc : 0 ≤ T.tableCursor m.dashboard.table)
    (h : (T.tableCursor m.dashboard.table).toNat < m.dashboard.filteredAgents.length) :
    ∃ m1, m.press (Msg.KeyMsg "enter") now = some m1 ∧
      m1.currentView = AgentDetailsView ∧
      m1.selectedAgent =
        some (m.dashboard.filteredAgents.get ⟨(T.tableCursor m.dashboard.table).toNat, h⟩) := by
  have h1 : m.Update (Msg.KeyMsg "enter") now = m.updateCurrentView (Msg.KeyMsg "enter") [] := by
    simp [Model.Update, hkm, hsel, DefaultKeyMap, Matches, NewBinding, Binding.Enabled]
  have h2 : m.updateCurrentView (Msg.KeyMsg "enter") [] =
      some (m, [Cmd1.send (Msg.AgentSelectedMsg
        (m.dashboard.filteredAgents.get ⟨(T.tableCursor m.dashboard.table).toNat, h⟩))]) := by
    unfold Model.updateCurrentView
    simp only [hv, m.dashboard.Update_enter_lt hc h, List.nil_append]
    rw [← hv]
  unfold Model.press
  rw [h1, h2]
  simp [sentMsgs, Model.run, Model.Update, Model.updateCurrentView, DetailsModel.Update]

/-- C7: a session of the concrete toolkit in which the claim fails. Two running agents
arrive, the user selects the first row, goes back and moves the cursor to the second row.
The state then shows the dashboard with the cursor on row 1 of the filtered list, which
holds agent a2, and agent a1 selected. Enter returns no command at all, and after it the
view is the details view while the selected agent is still a1, not the agent of row 1. -/
theorem C7_enter_keeps_previous_selection :
    ∃ m : Model plainToolkit,
      (NewModel plainToolkit demoClient).run 0 demoSession = some m ∧
      m.currentView = DashboardView ∧
      m.keyMap = DefaultKeyMap ∧
      m.selectedAgent = some (mkAgent "a1" "RUNNING") ∧
      plainToolkit.tableCursor m.dashboard.table = 1 ∧
      index m.dashboard.filteredAgents 1 = some (mkAgent "a2" "RUNNING") ∧
      (∃ m1, m.Update (Msg.KeyMsg "enter") 0 = some (m1, [])) ∧
      ∃ m2, m.press (Msg.KeyMsg "enter") 0 = some m2 ∧
        m2.currentView = AgentDetailsView ∧
        m2.selectedAgent = some (mkAgent "a1" "RUNNING") ∧
        m2.selectedAgent ≠ some (mkAgent "a2" "RUNNING") :=
  ⟨_, rfl, rfl, rfl, rfl, rfl, rfl, ⟨_, rfl⟩, _, rfl, rfl, rfl, by decide⟩

/-! ## The follow-up lifecycle -/

/-- No event sets `sending`: a follow-up state that is not sending is followed by one that
is not sending. The only assignment of `true` is made by `sendMessage` to its own copy of
the state. -/
theorem FollowupModel.Update_sending {T : Toolkit} (m : FollowupModel T) (msg : Msg)
    (h : m.sending = false) : (m.Update msg).1.sending = false := by
  cases msg with
  | KeyMsg k =>
    simp only [FollowupModel.Update]
    split_ifs <;> simp [FollowupModel.inputStep, FollowupModel.reset, h] <;> split_ifs <;> simp [h]
  | WindowSizeMsg w h0 | ConversationMsg c | ErrorMsg e | TickMsg t | AgentSelectedMsg a
  | FollowupSentMsg a b | Other n | AgentsMsg L =>
    simp only [FollowupModel.Update, FollowupModel.inputStep]
    split_ifs <;> simp [h]

/-- C10: an idle follow-up state of the concrete toolkit holding the text ping. The submit
(Enter in single-line mode, ctrl+enter in multi-line mode) returns the closure producing
`FollowupSentMsg`, but the state it returns has `sending = false`: it is still idle, not
sending. -/
theorem C10_submit_leaves_sending_false :
    (demoFollowup "ping").sending = false ∧ (demoFollowup "ping").sent = false ∧
    (demoFollowup "ping").error = "" ∧
    plainToolkit.inputValue (demoFollowup "ping").textinput = "ping" ∧
    ((demoFollowup "ping").Update (Msg.KeyMsg "enter")).2 =
      [Cmd1.send (Msg.FollowupSentMsg "" "ping")] ∧
    ((demoFollowup "ping").Update (Msg.KeyMsg "enter")).1.sending = false ∧
    ((demoFollowupArea "ping").Update (Msg.KeyMsg "ctrl+enter")).2 =
      [Cmd1.send (Msg.FollowupSentMsg "" "ping")] ∧
    ((demoFollowupArea "ping").Update (Msg.KeyMsg "ctrl+enter")).1.sending = false :=
  ⟨rfl, rfl, rfl, rfl, rfl, rfl, rfl, rfl⟩

/-- A submit that the guard rejects is an ordinary key for the input in use: the flags of
the lifecycle stay as they are and only widget commands are returned. -/
theorem FollowupModel.inputStep_flags {T : Toolkit} (m : FollowupModel T) (msg : Msg) :
    (m.inputStep msg).1.sending = m.sending ∧ (m.inputStep msg).1.sent = m.sent ∧
    (m.inputStep msg).1.error = m.error ∧ (m.inputStep msg).1.useTextarea = m.useTextarea ∧
    ∀ x ∈ (m.inputStep msg).2, ∃ n, x = Cmd1.widget n := by
  unfold FollowupModel.inputStep
  split_ifs <;> simp [widgetCmd]

/-- C12: for every follow-up state with `sending = true`, whatever the input holds, Enter
and ctrl+enter are handed to the input in use like any other key: `sending`, `sent` and
`error` are unchanged and every command returned is a widget command, so no send command
is produced. -/
theorem C12_submit_while_sending (T : Toolkit) (m : FollowupModel T) (k : String)
    (hs : m.sending = true) (hk : k = "enter" ∨ k = "ctrl+enter") :
    m.Update (Msg.KeyMsg k) = m.inputStep (Msg.KeyMsg k) ∧
    (m.Update (Msg.KeyMsg k)).1.sending = true ∧
    (m.Update (Msg.KeyMsg k)).1.sent = m.sent ∧
    (m.Update (Msg.KeyMsg k)).1.error = m.error ∧
    ∀ x ∈ (m.Update (Msg.KeyMsg k)).2, ∃ n, x = Cmd1.widget n := by
  have hstep : m.Update (Msg.KeyMsg k) = m.inputStep (Msg.KeyMsg k) := by
    rcases hk with rfl | rfl <;> simp [FollowupModel.Update, hs]
  obtain ⟨h1, h2, h3, -, h5⟩ := m.inputStep_flags (Msg.KeyMsg k)
  rw [hstep]
  exact ⟨rfl, h1.trans hs, h2, h3, h5⟩

/-- C12 at a follow-up value whose `sending` flag is set and whose input holds a text. -/
theorem C12_submit_while_sending_witness :
    demoSendingFollowup.sending = true ∧
    demoSendingFollowup.Update (Msg.KeyMsg "enter")
      = demoSendingFollowup.inputStep (Msg.KeyMsg "enter") ∧
    (demoSendingFollowup.Update (Msg.KeyMsg "enter")).1.sending = true ∧
    (demoSendingFollowup.Update (Msg.KeyMsg "enter")).1.sent = demoSendingFollowup.sent ∧
    (demoSendingFollowup.Update (Msg.KeyMsg "enter")).1.error = demoSendingFollowup.error ∧
    ∀ x ∈ (demoSendingFollowup.Update (Msg.KeyMsg "enter")).2, ∃ n, x = Cmd1.widget n :=
  ⟨rfl, C12_submit_while_sending plainToolkit demoSendingFollowup "enter" rfl (Or.inl rfl)⟩

/-- Enter in the follow-up view: the guard of single-line mode, then the send command or
the input step. -/
theorem FollowupModel.Update_enter {T : Toolkit} (m : FollowupModel T) :
    m.Update (Msg.KeyMsg "enter") =
      if (!m.useTextarea && T.inputValue m.textinput != "" && !m.sending) = true then
        (m, [Cmd1.send (Msg.FollowupSentMsg "" (T.inputValue m.textinput))])
      else m.inputStep (Msg.KeyMsg "enter") := by
  simp [FollowupModel.Update, FollowupModel.sendMessage]

/-- The key ctrl+enter in the follow-up view: the guard of multi-line mode, then the send
command or the input step. -/
theorem FollowupModel.Update_ctrl_enter {T : Toolkit} (m : FollowupModel T) :
    m.Update (Msg.KeyMsg "ctrl+enter") =
      if (m.useTextarea && T.areaValue m.textarea != "" && !m.sending) = true then
        (m, [Cmd1.send (Msg.FollowupSentMsg "" (T.areaValue m.textarea))])
      else m.inputStep (Msg.KeyMsg "ctrl+enter") := by
  simp [FollowupModel.Update, FollowupModel.sendMessage]

/-- C13, the claim as stated fails: in the Error phase (not sending, not sent, error text
boom) with the input holding ping, Enter returns the send command. -/
theorem C13_error_phase_submit_accepted :
    demoErrorFollowup.sending = false ∧ demoErrorFollowup.sent = false ∧
    demoErrorFollowup.error = "boom" ∧ demoErrorFollowup.error ≠ "" ∧
    plainToolkit.inputValue demoErrorFollowup.textinput = "ping" ∧
    (demoErrorFollowup.Update (Msg.KeyMsg "enter")).2 =
      [Cmd1.send (Msg.FollowupSentMsg "" "ping")] :=
  ⟨rfl, rfl, rfl, by decide, rfl, rfl⟩

/-- C13, amended: for every follow-up state, a submit (Enter or ctrl+enter) returns a send
command only if `sending` is false, the key is the one of the input mode in use and the
text of that input is not empty; the error text is not part of the guard. A submit with an
empty input in use, or while sending, is handed to the input like any other key: it returns
widget commands only and leaves `sending`, `sent` and `error` unchanged. In a state that is
neither sending nor sent, with any error text (the Idle and the Error phase), the submit of
the mode in use with a non-empty text returns exactly the one send command and the
unchanged state. -/
theorem C13_submit_guard (T : Toolkit) (m : FollowupModel T) :
    (∀ k, (k = "enter" ∨ k = "ctrl+enter") →
      (∃ msg, Cmd1.send msg ∈ (m.Update (Msg.KeyMsg k)).2) →
      m.sending = false ∧
      ((k = "enter" ∧ m.useTextarea = false ∧ T.inputValue m.textinput ≠ "") ∨
       (k = "ctrl+enter" ∧ m.useTextarea = true ∧ T.areaValue m.textarea ≠ ""))) ∧
    (∀ k, (k = "enter" ∨ k = "ctrl+enter") →
      (m.sending = true ∨
        (if m.useTextarea = true then T.areaValue m.textarea else T.inputValue m.textinput)
          = "") →
      m.Update (Msg.KeyMsg k) = m.inputStep (Msg.KeyMsg k) ∧
      (m.Update (Msg.KeyMsg k)).1.sending = m.sending ∧
      (m.Update (Msg.KeyMsg k)).1.sent = m.sent ∧
      (m.Update (Msg.KeyMsg k)).1.error = m.error ∧
      ∀ x ∈ (m.Update (Msg.KeyMsg k)).2, ∃ n, x = Cmd1.widget n) ∧
    (m.sending = false → m.sent = false → m.useTextarea = false →
      T.inputValue m.textinput ≠ "" →
      m.Update (Msg.KeyMsg "enter") =
        (m, [Cmd1.send (Msg.FollowupSentMsg "" (T.inputValue m.textinput))])) ∧
    (m.sending = false → m.sent = false → m.useTextarea = true →
      T.areaValue m.textarea ≠ "" →
      m.Update (Msg.KeyMsg "ctrl+enter") =
        (m, [Cmd1.send (Msg.FollowupSentMsg "" (T.areaValue m.textarea))])) := by
  have hw : ∀ (msg : Msg) (y : Msg), Cmd1.send y ∉ (m.inputStep msg).2 := by
    intro msg y hmem
    obtain ⟨n, hn⟩ := (m.inputStep_flags msg).2.2.2.2 _ hmem
    exact absurd hn (by simp)
  refine ⟨?_, ?_, ?_, ?_⟩
  · rintro k (rfl | rfl) ⟨y, hy⟩
    · rw [FollowupModel.Update_enter] at hy
      split_ifs at hy with hg
      · simp only [Bool.and_eq_true, Bool.not_eq_true', bne_iff_ne, ne_eq] at hg
        exact ⟨hg.2, Or.inl ⟨rfl, hg.1.1, hg.1.2⟩⟩
      · exact absurd hy (hw _ _)
    · rw [FollowupModel.Update_ctrl_enter] at hy
      split_ifs at hy with hg
      · simp only [Bool.and_eq_true, Bool.not_eq_true', bne_iff_ne, ne_eq] at hg
        exact ⟨hg.2, Or.inr ⟨rfl, hg.1.1, hg.1.2⟩⟩
      · exact absurd hy (hw _ _)
  · intro k hk hrej
    have hstep : m.Update (Msg.KeyMsg k) = m.inputStep (Msg.KeyMsg k) := by
      rcases hk with rfl | rfl
      · rw [FollowupModel.Update_enter]
        rcases hrej with h | h
        · simp [h]
        · cases hu : m.useTextarea
          · simp [hu] at h
            simp [h]
          · simp
      · rw [FollowupModel.Update_ctrl_enter]
        rcases hrej with h | h
        · simp [h]
        · cases hu : m.useTextarea
          · simp
          · simp [hu] at h
            simp [h]
    obtain ⟨h1, h2, h3, -, h5⟩ := m.inputStep_flags (Msg.KeyMsg k)
    rw [hstep]
    exact ⟨rfl, h1, h2, h3, h5⟩
  · intro hs _ hu hv
    rw [FollowupModel.Update_enter]
    simp [hs, hu, hv]
  · intro hs _ hu hv
    rw [FollowupModel.Update_ctrl_enter]
    simp [hs, hu, hv]

/-- C13 amended, at the Error-phase state of the concrete toolkit. -/
theorem C13_submit_guard_witness :
    demoErrorFollowup.sending = false ∧ demoErrorFollowup.sent = false ∧
    demoErrorFollowup.useTextarea = false ∧
    plainToolkit.inputValue demoErrorFollowup.textinput ≠ "" ∧
    demoErrorFollowup.Update (Msg.KeyMsg "enter") =
      (demoErrorFollowup,
        [Cmd1.send (Msg.FollowupSentMsg "" (plainToolkit.inputValue
          demoErrorFollowup.textinput))]) :=
  ⟨rfl, rfl, rfl, by decide,
    (C13_submit_guard plainToolkit demoErrorFollowup).2.2.1 rfl rfl rfl (by decide)⟩

/-! ## The commands of the root -/

/-- Every step of the root either is the Quit key, answered by the unchanged state and the
quit command, or is the step of the active view of some state, started with commands that
are the list-agents command, a get-conversation command, the ticker or local commands. -/
theorem Model.Update_shape {T : Toolkit} (m : Model T) (msg : Msg) (now : Time) :
    (∃ k, msg = Msg.KeyMsg k ∧ Matches k m.keyMap.Quit = true ∧
      m.Update msg now = some (m, [Cmd1.Quit])) ∨
    (∃ (m0 : Model T) (cmds0 : Cmd), m.Update msg now = m0.updateCurrentView msg cmds0 ∧
      ∀ x ∈ cmds0, x = Cmd1.fetchAgents m.client ∨
        (∃ id, x = Cmd1.fetchConversation m.client id) ∨ x = Cmd1.tickCmd ∨
        x.isLocal = true) := by
  have hP : ∀ (m0 : Model T) (cmds0 : Cmd),
      (∀ x ∈ cmds0, x = Cmd1.fetchAgents m.client ∨
        (∃ id, x = Cmd1.fetchConversation m.client id) ∨ x = Cmd1.tickCmd ∨
        x.isLocal = true) →
      ∃ (m1 : Model T) (cmds1 : Cmd),
        m0.updateCurrentView msg cmds0 = m1.updateCurrentView msg cmds1 ∧
        ∀ x ∈ cmds1, x = Cmd1.fetchAgents m.client ∨
          (∃ id, x = Cmd1.fetchConversation m.client id) ∨ x = Cmd1.tickCmd ∨
          x.isLocal = true := fun m0 cmds0 h => ⟨m0, cmds0, rfl, h⟩
  cases msg with
  | KeyMsg k =>
    by_cases hq : Matches k m.keyMap.Quit = true
    · exact Or.inl ⟨k, rfl, hq, by simp [Model.Update, hq]⟩
    · right
      unfold Model.Update
      simp only
      rw [if_neg hq]
      by_cases h1 : Matches k m.keyMap.Help = true
      · rw [if_pos h1]
        exact hP _ _ (by simp)
      rw [if_neg h1]
      by_cases h2 : Matches k m.keyMap.Back = true
      · rw [if_pos h2]
        by_cases hv : m.currentView ≠ DashboardView
        · rw [if_pos hv]
          exact hP _ _ (by simp)
        · rw [if_neg hv]
          exact hP _ _ (by simp)
      rw [if_neg h2]
      by_cases h3 : Matches k m.keyMap.Refresh = true
      · rw [if_pos h3]
        exact hP _ _ (by simp [Model.fetchAgents])
      rw [if_neg h3]
      by_cases h4 : Matches k m.keyMap.Enter = true
      · rw [if_pos h4]
        by_cases hv : m.currentView = DashboardView ∧ m.selectedAgent ≠ none
        · rw [if_pos hv]
          exact hP _ _ (by simp)
        · rw [if_neg hv]
          exact hP _ _ (by simp)
      rw [if_neg h4]
      by_cases h5 : Matches k m.keyMap.Details = true
      · rw [if_pos h5]
        by_cases hv : m.selectedAgent ≠ none
        · rw [if_pos hv]
          exact hP _ _ (by simp)
        · rw [if_neg hv]
          exact hP _ _ (by simp)
      rw [if_neg h5]
      by_cases h6 : Matches k m.keyMap.Conversation = true
      · rw [if_pos h6]
        cases m.selectedAgent with
        | none => exact hP _ _ (by simp)
        | some a => exact hP _ _ (by simp [Model.fetchConversation])
      rw [if_neg h6]
      by_cases h7 : Matches k m.keyMap.Followup = true
      · rw [if_pos h7]
        cases m.selectedAgent with
        | none => exact hP _ _ (by simp)
        | some a =>
          by_cases hs : a.Status = "RUNNING"
          · simp only [hs, if_true]
            exact hP _ _ (by simp)
          · simp only [hs, if_false]
            exact hP _ _ (by simp)
      rw [if_neg h7]
      by_cases h8 : Matches k m.keyMap.Settings = true
      · rw [if_pos h8]
        exact hP _ _ (by simp)
      rw [if_neg h8]
      exact hP _ _ (by simp)
  | AgentsMsg L =>
    right
    simp only [Model.Update, DashboardModel.Update_AgentsMsg]
    refine hP _ _ (fun x hx => Or.inr (Or.inr (Or.inr ?_)))
    exact DashboardModel.tableStep_isLocal _ _ x (by simpa using hx)
  | ConversationMsg c =>
    right
    simp only [Model.Update]
    refine hP _ _ (fun x hx => Or.inr (Or.inr (Or.inr ?_)))
    exact ConversationModel.Update_cmd_local _ _ x (by simpa using hx)
  | TickMsg t =>
    right
    simp only [Model.Update]
    refine hP _ _ (fun x hx => ?_)
    split_ifs at hx <;> simp [Model.fetchAgents, Model.tickCmd] at hx <;>
      rcases hx with rfl | rfl <;> simp
  | WindowSizeMsg w h0 | ErrorMsg e | AgentSelectedMsg a | FollowupSentMsg a b | Other n =>
    right
    simp only [Model.Update]
    exact hP _ _ (by simp)

/-- The commands a step of the root returns: the quit command, the list-agents command, a
get-conversation command, the ticker, or local commands. -/
theorem Model.Update_cmds {T : Toolkit} {m : Model T} {msg : Msg} {now : Time}
    {r : Model T × Cmd} (h : m.Update msg now = some r) :
    ∀ x ∈ r.2, x = Cmd1.Quit ∨ x = Cmd1.fetchAgents m.client ∨
      (∃ id, x = Cmd1.fetchConversation m.client id) ∨ x = Cmd1.tickCmd ∨
      x.isLocal = true := by
  intro x hx
  rcases m.Update_shape msg now with ⟨k, -, -, hu⟩ | ⟨m0, cmds0, hu, hc⟩
  · rw [hu] at h
    simp only [Option.some.injEq] at h
    subst h
    simp only [List.mem_singleton] at hx
    exact Or.inl hx
  · rw [hu] at h
    obtain ⟨d, de, co, fo, se, he, extra, rfl, hl⟩ := Model.updateCurrentView_some h
    simp only [List.mem_append] at hx
    rcases hx with hx | hx
    · exact Or.inr (hc x hx)
    · exact Or.inr (Or.inr (Or.inr (Or.inr (hl x hx))))

/-- No step of the root returns the command built by `Model.sendFollowup`: nothing in the
package calls that method. -/
theorem Model.Update_never_sendFollowup {T : Toolkit} {m : Model T} {msg : Msg} {now : Time}
    {r : Model T × Cmd} (h : m.Update msg now = some r) (c : Client) (id text : String) :
    Cmd1.sendFollowup c id text ∉ r.2 := by
  intro hx
  rcases Model.Update_cmds h _ hx with h1 | h1 | ⟨_, h1⟩ | h1 | h1
  · exact Cmd1.noConfusion h1
  · exact Cmd1.noConfusion h1
  · exact Cmd1.noConfusion h1
  · exact Cmd1.noConfusion h1
  · exact Bool.noConfusion h1

/-! ## Results of a follow-up reach the follow-up view only while it is active -/

/-- With the follow-up view active, the step of the active view is the step of the
follow-up sub-state. -/
theorem Model.updateCurrentView_followup_active {T : Toolkit} (m : Model T) (msg : Msg)
    (cmds : Cmd) (hv : m.currentView = FollowupView) :
    m.updateCurrentView msg cmds =
      some ({ m with followup := (m.followup.Update msg).1 },
        cmds ++ (m.followup.Update msg).2) := by
  simp [Model.updateCurrentView, hv]

/-- With another view active, the step of the active view leaves the follow-up sub-state
as it is. -/
theorem Model.updateCurrentView_followup_inactive {T : Toolkit} {m : Model T} {msg : Msg}
    {cmds : Cmd} {r : Model T × Cmd} (hv : m.currentView ≠ FollowupView)
    (h : m.updateCurrentView msg cmds = some r) : r.1.followup = m.followup := by
  unfold Model.updateCurrentView at h
  split at h
  · cases hd : m.dashboard.Update msg with
    | none => simp [hd] at h
    | some p =>
      simp only [hd, Option.some.injEq] at h
      subst h
      rfl
  · simp only [Option.some.injEq] at h
    subst h
    rfl
  · simp only [Option.some.injEq] at h
    subst h
    rfl
  · rename_i hf
    exact absurd hf hv
  · simp only [Option.some.injEq] at h
    subst h
    rfl
  · simp only [Option.some.injEq] at h
    subst h
    rfl

/-- The flags of the follow-up sub-state after `FollowupSentMsg`. -/
theorem FollowupModel.Update_sent_flags {T : Toolkit} (m : FollowupModel T)
    (id text : String) :
    (m.Update (Msg.FollowupSentMsg id text)).1.sent = true ∧
    (m.Update (Msg.FollowupSentMsg id text)).1.sending = false ∧
    (m.Update (Msg.FollowupSentMsg id text)).1.error = "" :=
  let m1 : FollowupModel T := { m with sending := false, sent := true, error := "" }
  ⟨(m1.inputStep_flags _).2.1, (m1.inputStep_flags _).1, (m1.inputStep_flags _).2.2.1⟩

/-- The flags of the follow-up sub-state after `ErrorMsg`. -/
theorem FollowupModel.Update_error_flags {T : Toolkit} (m : FollowupModel T) (e : String) :
    (m.Update (Msg.ErrorMsg e)).1.sending = false ∧
    (m.Update (Msg.ErrorMsg e)).1.error = e ∧
    (m.Update (Msg.ErrorMsg e)).1.sent = m.sent :=
  let m1 : FollowupModel T := { m with sending := false, error := e }
  ⟨(m1.inputStep_flags _).1, (m1.inputStep_flags _).2.2.1, (m1.inputStep_flags _).2.1⟩

/-- The root on `FollowupSentMsg`: it has no case of its own for it, so the follow-up
sub-state becomes Sent when its view is active and is left as it is otherwise. -/
theorem Model.Update_FollowupSentMsg_routing {T : Toolkit} (m : Model T) (id text : String)
    (now : Time) :
    ∃ m1 cmds, m.Update (Msg.FollowupSentMsg id text) now = some (m1, cmds) ∧
      (m.currentView = FollowupView →
        m1.followup.sent = true ∧ m1.followup.sending = false ∧ m1.followup.error = "") ∧
      (m.currentView ≠ FollowupView → m1.followup = m.followup) := by
  obtain ⟨r, hr⟩ := m.updateCurrentView_defined (Msg.FollowupSentMsg id text) []
    (fun _ hmsg => absurd hmsg (by simp))
  refine ⟨r.1, r.2, hr, fun hv => ?_, fun hv => Model.updateCurrentView_followup_inactive hv hr⟩
  have h2 := m.updateCurrentView_followup_active (Msg.FollowupSentMsg id text) [] hv
  rw [hr] at h2
  simp only [Option.some.injEq] at h2
  subst h2
  exact m.followup.Update_sent_flags id text

/-- C11: a session of the concrete toolkit in which the claim fails. A running agent is
selected, the follow-up view is opened and a text is typed: the state is in the follow-up
view, idle, with a selected agent and a non-empty text. Enter then returns exactly one
command, and it is not a request to the remote service: it is the closure that returns
`FollowupSentMsg` with an empty agent id, whatever the service would answer. No
`sendFollowup` command is returned, and processing the event the closure produces puts the
follow-up sub-state in the Sent phase. -/
theorem C11_submit_never_reaches_the_service :
    ∃ m : Model plainToolkit,
      (NewModel plainToolkit demoClient).run 0 demoTyping = some m ∧
      m.currentView = FollowupView ∧
      m.selectedAgent = some (mkAgent "a1" "RUNNING") ∧
      m.followup.sending = false ∧ m.followup.sent = false ∧ m.followup.error = "" ∧
      plainToolkit.inputValue m.followup.textinput = "fping" ∧
      (∃ m1, m.Update (Msg.KeyMsg "enter") 0 =
        some (m1, [Cmd1.send (Msg.FollowupSentMsg "" "fping")])) ∧
      (∀ r, m.Update (Msg.KeyMsg "enter") 0 = some r →
        Cmd1.sendFollowup demoClient "a1" "fping" ∉ r.2) ∧
      ∃ m2, m.press (Msg.KeyMsg "enter") 0 = some m2 ∧ m2.followup.sent = true :=
  ⟨_, rfl, rfl, rfl, rfl, rfl, rfl, rfl, ⟨_, rfl⟩,
    fun _ h => Model.Update_never_sendFollowup h _ _ _, _, rfl, rfl⟩

/-- C14: a session of the concrete toolkit in which the claim fails. After the text is
typed the user submits with Enter and goes back to the dashboard with esc before the
result is processed. `FollowupSentMsg` then arrives with the dashboard active: the root
hands it to the dashboard only, and the follow-up sub-state is not in the Sent phase. -/
theorem C14_sent_result_lost_on_other_view :
    ∃ m : Model plainToolkit,
      (NewModel plainToolkit demoClient).run 0
        (demoTyping ++ [Msg.KeyMsg "enter", Msg.KeyMsg "esc"]) = some m ∧
      m.currentView = DashboardView ∧
      ∃ m1, m.Update (Msg.FollowupSentMsg "" "fping") 0 = some (m1, []) ∧
        m1.followup.sent = false :=
  ⟨_, rfl, rfl, _, rfl, rfl⟩

/-- C16: a session of the concrete toolkit in which the claim fails. The text is typed and
submitted and the result is processed, so the follow-up sub-state is in the Sent phase. The
user leaves with esc and comes back with the Followup key: the follow-up sub-state is still
in the Sent phase and its input is not cleared. The Error phase behaves alike. -/
theorem C16_reentry_does_not_reset :
    (∃ m : Model plainToolkit,
      ((NewModel plainToolkit demoClient).run 0 demoTyping).bind
        (fun m0 => m0.press (Msg.KeyMsg "enter") 0) = some m ∧
      m.currentView = FollowupView ∧ m.followup.sent = true ∧
      ∃ m1, m.run 0 [Msg.KeyMsg "esc", Msg.KeyMsg "f"] = some m1 ∧
        m1.currentView = FollowupView ∧ m1.followup.sent = true ∧
        plainToolkit.inputValue m1.followup.textinput = "fpingf") ∧
    (∃ m : Model plainToolkit,
      (NewModel plainToolkit demoClient).run 0 (demoTyping ++ [Msg.ErrorMsg "boom"]) = some m ∧
      m.currentView = FollowupView ∧ m.followup.error = "boom" ∧
      ∃ m1, m.run 0 [Msg.KeyMsg "esc", Msg.KeyMsg "f"] = some m1 ∧
        m1.currentView = FollowupView ∧ m1.followup.error = "boom" ∧
        plainToolkit.inputValue m1.followup.textinput = "fpingf") :=
  ⟨⟨_, rfl, rfl, rfl, _, rfl, rfl, rfl, rfl⟩, ⟨_, rfl, rfl, rfl, _, rfl, rfl, rfl, rfl⟩⟩

/-- C15, the claim as stated fails: a session of the concrete toolkit. The text is typed
and submitted with Enter, which returns the closure of the send; before the result of the
send is processed the user goes back to the dashboard with esc, and a failure arrives.
`ErrorMsg` sets the error of the root, but the follow-up sub-state is not in the Error
phase: its error stays empty. -/
theorem C15_error_not_routed_to_inactive_followup :
    ∃ m0 : Model plainToolkit,
      (NewModel plainToolkit demoClient).run 0 demoTyping = some m0 ∧
      m0.currentView = FollowupView ∧
      ∃ ms, m0.Update (Msg.KeyMsg "enter") 0 =
          some (ms, [Cmd1.send (Msg.FollowupSentMsg "" "fping")]) ∧
        ∃ m, ms.Update (Msg.KeyMsg "esc") 0 = some (m, []) ∧
          m.currentView = DashboardView ∧
          ∃ m1, m.Update (Msg.ErrorMsg "boom") 0 = some (m1, []) ∧
            m1.error = "boom" ∧ m1.followup.error = "" ∧
            m1.followup.sent = false ∧ m1.followup.sending = false :=
  ⟨_, rfl, rfl, _, rfl, _, rfl, rfl, _, rfl, rfl, rfl, rfl, rfl⟩

/-- C15, amended: for every root state and message `s`, `Model.Update` on `ErrorMsg s`
sets the error of the root to `s` and keeps the view; when the follow-up view is the active
view, the follow-up sub-state gets `sending = false` and `error = s` and keeps `sent`;
when another view is active, the follow-up sub-state is left as it is. -/
theorem C15_error_msg (T : Toolkit) (m : Model T) (s : String) (now : Time) :
    ∃ m1 cmds, m.Update (Msg.ErrorMsg s) now = some (m1, cmds) ∧
      m1.error = s ∧ m1.currentView = m.currentView ∧
      (m.currentView = FollowupView →
        m1.followup.sending = false ∧ m1.followup.error = s ∧
        m1.followup.sent = m.followup.sent) ∧
      (m.currentView ≠ FollowupView → m1.followup = m.followup) := by
  obtain ⟨d, de, co, fo, se, he, extra, hr, -⟩ :=
    Model.updateCurrentView_spec ({ m with error := s, loading := false } : Model T)
      (Msg.ErrorMsg s) [] (fun _ hmsg => absurd hmsg (by simp))
  refine ⟨_, _, hr, rfl, rfl, fun hv => ?_, fun hv => ?_⟩
  · have h2 := Model.updateCurrentView_followup_active
      ({ m with error := s, loading := false } : Model T) (Msg.ErrorMsg s) [] hv
    rw [hr] at h2
    simp only [Option.some.injEq, Prod.mk.injEq] at h2
    have h3 := congrArg Model.followup h2.1
    simp only at h3
    rw [h3]
    exact m.followup.Update_error_flags s
  · have h2 := Model.updateCurrentView_followup_inactive
      (show ({ m with error := s, loading := false } : Model T).currentView ≠ FollowupView
        from hv) hr
    exact h2

/-- C15 amended, at the two states of a session in which a text was submitted and the
result is not yet processed: with the follow-up view still active the follow-up sub-state
gets the error, after esc it is left as it is. -/
theorem C15_error_msg_witness :
    ((NewModel plainToolkit demoClient).run 0 (demoTyping ++ [Msg.KeyMsg "enter"]) =
        some demoSubmitted ∧
      demoSubmitted.currentView = FollowupView ∧
      ∃ m1 cmds, demoSubmitted.Update (Msg.ErrorMsg "boom") 0 = some (m1, cmds) ∧
        m1.error = "boom" ∧ m1.followup.sending = false ∧ m1.followup.error = "boom") ∧
    ((NewModel plainToolkit demoClient).run 0
        (demoTyping ++ [Msg.KeyMsg "enter", Msg.KeyMsg "esc"]) = some demoSubmittedLeft ∧
      demoSubmittedLeft.currentView = DashboardView ∧
      ∃ m1 cmds, demoSubmittedLeft.Update (Msg.ErrorMsg "boom") 0 = some (m1, cmds) ∧
        m1.error = "boom" ∧ m1.followup = demoSubmittedLeft.followup) :=
  ⟨⟨rfl, rfl,
    match C15_error_msg plainToolkit demoSubmitted "boom" 0 with
    | ⟨m1, cmds, hu, he, _, hf, _⟩ => ⟨m1, cmds, hu, he, (hf rfl).1, (hf rfl).2.1⟩⟩,
   ⟨rfl, rfl,
    match C15_error_msg plainToolkit demoSubmittedLeft "boom" 0 with
    | ⟨m1, cmds, hu, he, _, _, hg⟩ => ⟨m1, cmds, hu, he, hg (fun h => View.noConfusion h)⟩⟩⟩

/-! ## Global keys -/

/-- The step of the active view for a key other than Enter returns. -/
theorem Model.updateCurrentView_key {T : Toolkit} (m : Model T) (k : String) (cmds : Cmd)
    (hk : k ≠ "enter") :
    ∃ d de co fo se he extra,
      m.updateCurrentView (Msg.KeyMsg k) cmds =
        some ({ m with dashboard := d, details := de, conversationModel := co, followup := fo,
                       settings := se, help := he }, cmds ++ extra) ∧
      ∀ x ∈ extra, x.isLocal = true :=
  m.updateCurrentView_spec (Msg.KeyMsg k) cmds
    (fun _ hmsg => absurd (Msg.KeyMsg.inj hmsg) hk)

/-- C17: for every root state with the default key bindings, whatever view is active: the
Help keys set `currentView` to `HelpView`; the Back keys give `currentView = DashboardView`;
the Settings key sets `currentView` to `SettingsView`; the Refresh keys leave `currentView`
unchanged and return the list-agents command of the state's client exactly once, and no
other list-agents command. -/
theorem C17_global_keys (T : Toolkit) (m : Model T) (now : Time)
    (hkm : m.keyMap = DefaultKeyMap) :
    (∀ k, (k = "?" ∨ k = "f1") →
      ∃ m1 cmds, m.Update (Msg.KeyMsg k) now = some (m1, cmds) ∧ m1.currentView = HelpView) ∧
    (∀ k, (k = "esc" ∨ k = "backspace") →
      ∃ m1 cmds, m.Update (Msg.KeyMsg k) now = some (m1, cmds) ∧
        m1.currentView = DashboardView) ∧
    (∃ m1 cmds, m.Update (Msg.KeyMsg "s") now = some (m1, cmds) ∧
      m1.currentView = SettingsView) ∧
    (∀ k, (k = "r" ∨ k = "f5") →
      ∃ m1 cmds, m.Update (Msg.KeyMsg k) now = some (m1, cmds) ∧
        m1.currentView = m.currentView ∧
        cmds.count (Cmd1.fetchAgents m.client) = 1 ∧
        ∀ c, Cmd1.fetchAgents c ∈ cmds → c = m.client) := by
  refine ⟨?_, ?_, ?_, ?_⟩
  · intro k hk
    have hne : k ≠ "enter" := by rcases hk with rfl | rfl <;> decide
    have hstep : m.Update (Msg.KeyMsg k) now =
        ({ m with currentView := HelpView } : Model T).updateCurrentView (Msg.KeyMsg k) [] := by
      rcases hk with rfl | rfl <;>
        simp [Model.Update, hkm, DefaultKeyMap, Matches, NewBinding, Binding.Enabled]
    obtain ⟨d, de, co, fo, se, he, extra, hr, -⟩ :=
      Model.updateCurrentView_key ({ m with currentView := HelpView } : Model T) k [] hne
    exact ⟨_, _, hstep.trans hr, rfl⟩
  · intro k hk
    have hne : k ≠ "enter" := by rcases hk with rfl | rfl <;> decide
    by_cases hv : m.currentView = DashboardView
    · have hstep : m.Update (Msg.KeyMsg k) now = m.updateCurrentView (Msg.KeyMsg k) [] := by
        rcases hk with rfl | rfl <;>
          simp [Model.Update, hkm, hv, DefaultKeyMap, Matches, NewBinding, Binding.Enabled]
      obtain ⟨d, de, co, fo, se, he, extra, hr, -⟩ := m.updateCurrentView_key k [] hne
      exact ⟨_, _, hstep.trans hr, hv⟩
    · have hstep : m.Update (Msg.KeyMsg k) now =
          ({ m with currentView := DashboardView } : Model T).updateCurrentView
            (Msg.KeyMsg k) [] := by
        rcases hk with rfl | rfl <;>
          simp [Model.Update, hkm, hv, DefaultKeyMap, Matches, NewBinding, Binding.Enabled]
      obtain ⟨d, de, co, fo, se, he, extra, hr, -⟩ :=
        Model.updateCurrentView_key ({ m with currentView := DashboardView } : Model T) k []
          hne
      exact ⟨_, _, hstep.trans hr, rfl⟩
  · have hstep : m.Update (Msg.KeyMsg "s") now =
        ({ m with currentView := SettingsView } : Model T).updateCurrentView
          (Msg.KeyMsg "s") [] := by
      simp [Model.Update, hkm, DefaultKeyMap, Matches, NewBinding, Binding.Enabled]
    obtain ⟨d, de, co, fo, se, he, extra, hr, -⟩ :=
      Model.updateCurrentView_key ({ m with currentView := SettingsView } : Model T) "s" []
        (by decide)
    exact ⟨_, _, hstep.trans hr, rfl⟩
  · intro k hk
    have hne : k ≠ "enter" := by rcases hk with rfl | rfl <;> decide
    have hstep : m.Update (Msg.KeyMsg k) now =
        m.updateCurrentView (Msg.KeyMsg k) [Cmd1.fetchAgents m.client] := by
      rcases hk with rfl | rfl <;>
        simp [Model.Update, Model.fetchAgents, hkm, DefaultKeyMap, Matches, NewBinding,
          Binding.Enabled]
    obtain ⟨d, de, co, fo, se, he, extra, hr, hl⟩ :=
      m.updateCurrentView_key k [Cmd1.fetchAgents m.client] hne
    refine ⟨_, _, hstep.trans hr, rfl, ?_, ?_⟩
    · simp [List.count_append, count_eq_zero_of_isLocal hl (Cmd1.fetchAgents m.client) rfl]
    · intro c hmem
      simp only [List.mem_append, List.mem_singleton] at hmem
      rcases hmem with h | h
      · exact Cmd1.fetchAgents.inj h
      · exact absurd (hl _ h) (by simp [Cmd1.isLocal])

/-- C17 at the initial state of the concrete toolkit. -/
theorem C17_global_keys_witness :
    (NewModel plainToolkit demoClient).keyMap = DefaultKeyMap ∧
    ∃ m1 cmds, (NewModel plainToolkit demoClient).Update (Msg.KeyMsg "r") 0
        = some (m1, cmds) ∧
      m1.currentView = (NewModel plainToolkit demoClient).currentView ∧
      cmds.count (Cmd1.fetchAgents (NewModel plainToolkit demoClient).client) = 1 ∧
      ∀ c, Cmd1.fetchAgents c ∈ cmds → c = (NewModel plainToolkit demoClient).client :=
  ⟨rfl, (C17_global_keys plainToolkit (NewModel plainToolkit demoClient) 0 rfl).2.2.2 "r"
    (Or.inl rfl)⟩

/-- C18: for every root state and clock reading, a key press matching the Quit binding is
answered by the unchanged state and the quit command alone; and whenever `Model.Update`
returns a command list containing the quit command, the event was a key press matching the
Quit binding, so no `AgentsMsg`, `ConversationMsg`, `FollowupSentMsg`, `ErrorMsg`,
`TickMsg` or other key gives a quit command. With the default bindings the Quit keys are
q and ctrl+c. -/
theorem C18_quit_only_on_quit_key (T : Toolkit) (m : Model T) (now : Time) :
    (∀ k, Matches k m.keyMap.Quit = true →
      m.Update (Msg.KeyMsg k) now = some (m, [Cmd1.Quit])) ∧
    (∀ msg r, m.Update msg now = some r → Cmd1.Quit ∈ r.2 →
      ∃ k, msg = Msg.KeyMsg k ∧ Matches k m.keyMap.Quit = true) ∧
    (∀ k, Matches k DefaultKeyMap.Quit = true ↔ (k = "q" ∨ k = "ctrl+c")) := by
  refine ⟨fun k hq => by simp [Model.Update, hq], ?_, ?_⟩
  · intro msg r hr hmem
    rcases m.Update_shape msg now with ⟨k, hk, hq, -⟩ | ⟨m0, cmds0, hu, hc⟩
    · exact ⟨k, hk, hq⟩
    · exfalso
      rw [hu] at hr
      obtain ⟨d, de, co, fo, se, he, extra, rfl, hl⟩ := Model.updateCurrentView_some hr
      simp only [List.mem_append] at hmem
      rcases hmem with h | h
      · rcases hc _ h with h1 | ⟨_, h1⟩ | h1 | h1
        · exact Cmd1.noConfusion h1
        · exact Cmd1.noConfusion h1
        · exact Cmd1.noConfusion h1
        · exact Bool.noConfusion h1
      · exact Bool.noConfusion (hl _ h)
  · intro k
    simp [DefaultKeyMap, Matches, NewBinding, Binding.Enabled]

/-- C18 at the initial state of the concrete toolkit, for the key q. -/
theorem C18_quit_only_on_quit_key_witness :
    Matches "q" (NewModel plainToolkit demoClient).keyMap.Quit = true ∧
    (NewModel plainToolkit demoClient).Update (Msg.KeyMsg "q") 0 =
      some (NewModel plainToolkit demoClient, [Cmd1.Quit]) :=
  ⟨by decide,
    (C18_quit_only_on_quit_key plainToolkit (NewModel plainToolkit demoClient) 0).1 "q"
      (by decide)⟩

/-! ## The conversation -/

/-- C19: for every root state with a selected agent `a` and the default key bindings, the
Conversation key sets `currentView` to `ConversationView` and returns the get-conversation
command for the id of `a` exactly once and no other get-conversation command; the `Update`
of the details view returns no command and the `Update` of the conversation view returns
widget commands only. -/
theorem C19_conversation_key (T : Toolkit) (m : Model T) (a : Agent) (now : Time)
    (hkm : m.keyMap = DefaultKeyMap) (hsel : m.selectedAgent = some a) :
    (∃ m1 cmds, m.Update (Msg.KeyMsg "c") now = some (m1, cmds) ∧
      m1.currentView = ConversationView ∧
      cmds.count (Cmd1.fetchConversation m.client a.ID) = 1 ∧
      ∀ c id, Cmd1.fetchConversation c id ∈ cmds → c = m.client ∧ id = a.ID) ∧
    (∀ (d : DetailsModel) (msg : Msg), (d.Update msg).2 = []) ∧
    (∀ (cm : ConversationModel T) (msg : Msg), ∀ x ∈ (cm.Update msg).2,
      ∃ n, x = Cmd1.widget n) := by
  refine ⟨?_, DetailsModel.Update_cmd_nil, ?_⟩
  · have hstep : m.Update (Msg.KeyMsg "c") now =
        ({ m with currentView := ConversationView } : Model T).updateCurrentView
          (Msg.KeyMsg "c") [Cmd1.fetchConversation m.client a.ID] := by
      simp [Model.Update, Model.fetchConversation, hkm, hsel, DefaultKeyMap, Matches,
        NewBinding, Binding.Enabled]
    obtain ⟨d, de, co, fo, se, he, extra, hr, hl⟩ :=
      Model.updateCurrentView_key ({ m with currentView := ConversationView } : Model T) "c"
        [Cmd1.fetchConversation m.client a.ID] (by decide)
    refine ⟨_, _, hstep.trans hr, rfl, ?_, ?_⟩
    · simp [List.count_append,
        count_eq_zero_of_isLocal hl (Cmd1.fetchConversation m.client a.ID) rfl]
    · intro c id hmem
      simp only [List.mem_append, List.mem_singleton] at hmem
      rcases hmem with h | h
      · exact Cmd1.fetchConversation.inj h
      · exact absurd (hl _ h) (by simp [Cmd1.isLocal])
  · intro cm msg x hx
    simp only [ConversationModel.Update, widgetCmd, List.mem_map] at hx
    obtain ⟨n, -, rfl⟩ := hx
    exact ⟨n, rfl⟩

/-- C19 at the state of the concrete toolkit with agent a1 selected. -/
theorem C19_conversation_key_witness :
    (demoSelected "COMPLETED").keyMap = DefaultKeyMap ∧
    (demoSelected "COMPLETED").selectedAgent = some (mkAgent "a1" "COMPLETED") ∧
    ∃ m1 cmds, (demoSelected "COMPLETED").Update (Msg.KeyMsg "c") 0 = some (m1, cmds) ∧
      m1.currentView = ConversationView ∧
      cmds.count (Cmd1.fetchConversation (demoSelected "COMPLETED").client
        (mkAgent "a1" "COMPLETED").ID) = 1 ∧
      ∀ c id, Cmd1.fetchConversation c id ∈ cmds →
        c = (demoSelected "COMPLETED").client ∧ id = (mkAgent "a1" "COMPLETED").ID :=
  ⟨rfl, rfl,
    (C19_conversation_key plainToolkit (demoSelected "COMPLETED") (mkAgent "a1" "COMPLETED") 0
      rfl rfl).1⟩

/-- C20: for every root state, whatever the view and the selection, and every conversation
`d`, `Model.Update` on `ConversationMsg d` returns a state whose conversation is `d` and
whose view, agent list, selected agent, error and `lastRefresh` are unchanged; the commands
returned are local. Nothing relates `d` to the selected agent. -/
theorem C20_conversation_msg (T : Toolkit) (m : Model T) (d : ConversationResponse)
    (now : Time) :
    ∃ m1 cmds, m.Update (Msg.ConversationMsg d) now = some (m1, cmds) ∧
      m1.conversation = some d ∧ m1.currentView = m.currentView ∧
      m1.agents = m.agents ∧ m1.selectedAgent = m.selectedAgent ∧
      m1.error = m.error ∧ m1.lastRefresh = m.lastRefresh ∧
      ∀ x ∈ cmds, x.isLocal = true := by
  obtain ⟨da, de, co, fo, se, he, extra, hr, hl⟩ :=
    Model.updateCurrentView_spec
      ({ m with conversation := some d,
                conversationModel := (m.conversationModel.Update (Msg.ConversationMsg d)).1 } :
        Model T)
      (Msg.ConversationMsg d) ([] ++ (m.conversationModel.Update (Msg.ConversationMsg d)).2)
      (fun _ hmsg => absurd hmsg (by simp))
  refine ⟨_, _, hr, rfl, rfl, rfl, rfl, rfl, rfl, ?_⟩
  intro x hx
  simp only [List.nil_append, List.mem_append] at hx
  rcases hx with h | h
  · exact ConversationModel.Update_cmd_local _ _ x h
  · exact hl x h

/-! ## Leaving and re-entering the follow-up view -/

/-- The Back key, for every toolkit: the root makes the dashboard the active view before
the key is handed on, so the follow-up sub-state never receives it and is left as it is. -/
theorem Model.Update_esc {T : Toolkit} (m : Model T) (now : Time)
    (hkm : m.keyMap = DefaultKeyMap) :
    ∃ m1 cmds, m.Update (Msg.KeyMsg "esc") now = some (m1, cmds) ∧
      m1.currentView = DashboardView ∧ m1.followup = m.followup ∧
      m1.keyMap = m.keyMap ∧ m1.selectedAgent = m.selectedAgent := by
  by_cases hv : m.currentView = DashboardView
  · have hstep : m.Update (Msg.KeyMsg "esc") now = m.updateCurrentView (Msg.KeyMsg "esc") [] := by
      simp [Model.Update, hkm, hv, DefaultKeyMap, Matches, NewBinding, Binding.Enabled]
    obtain ⟨d, de, co, fo, se, he, extra, hr, -⟩ :=
      m.updateCurrentView_key "esc" [] (by decide)
    have hf := Model.updateCurrentView_followup_inactive (by rw [hv]; decide) hr
    exact ⟨_, _, hstep.trans hr, hv, hf, rfl, rfl⟩
  · have hstep : m.Update (Msg.KeyMsg "esc") now =
        ({ m with currentView := DashboardView } : Model T).updateCurrentView
          (Msg.KeyMsg "esc") [] := by
      simp [Model.Update, hkm, hv, DefaultKeyMap, Matches, NewBinding, Binding.Enabled]
    obtain ⟨d, de, co, fo, se, he, extra, hr, -⟩ :=
      Model.updateCurrentView_key ({ m with currentView := DashboardView } : Model T) "esc" []
        (by decide)
    have hne : ({ m with currentView := DashboardView } : Model T).currentView ≠ FollowupView :=
      fun h => View.noConfusion h
    have hf := Model.updateCurrentView_followup_inactive hne hr
    exact ⟨_, _, hstep.trans hr, rfl, hf, rfl, rfl⟩

/-- The Followup key, for every toolkit: whether or not the view is entered, the flags of
the follow-up sub-state stay as they are. -/
theorem Model.Update_f_flags {T : Toolkit} (m : Model T) (now : Time)
    (hkm : m.keyMap = DefaultKeyMap) (hv : m.currentView = DashboardView) :
    ∃ m1 cmds, m.Update (Msg.KeyMsg "f") now = some (m1, cmds) ∧
      m1.followup.sending = m.followup.sending ∧ m1.followup.sent = m.followup.sent ∧
      m1.followup.error = m.followup.error := by
  have hkeep : ∀ r, m.updateCurrentView (Msg.KeyMsg "f") [] = some r →
      r.1.followup = m.followup :=
    fun r hr => Model.updateCurrentView_followup_inactive (by rw [hv]; decide) hr
  obtain ⟨d, de, co, fo, se, he, extra, hr, -⟩ := m.updateCurrentView_key "f" [] (by decide)
  have hsame := hkeep _ hr
  cases hsel : m.selectedAgent with
  | none =>
    have hstep : m.Update (Msg.KeyMsg "f") now = m.updateCurrentView (Msg.KeyMsg "f") [] := by
      simp [Model.Update, hkm, hsel, DefaultKeyMap, Matches, NewBinding, Binding.Enabled]
    refine ⟨_, _, hstep.trans hr, ?_, ?_, ?_⟩ <;> rw [hsame]
  | some a =>
    by_cases hs : a.Status = "RUNNING"
    · have hstep : m.Update (Msg.KeyMsg "f") now =
          ({ m with currentView := FollowupView } : Model T).updateCurrentView
            (Msg.KeyMsg "f") [] := by
        simp [Model.Update, hkm, hsel, hs, DefaultKeyMap, Matches, NewBinding, Binding.Enabled]
      have hact := Model.updateCurrentView_followup_active
        ({ m with currentView := FollowupView } : Model T) (Msg.KeyMsg "f") [] rfl
      have hin : m.followup.Update (Msg.KeyMsg "f") = m.followup.inputStep (Msg.KeyMsg "f") := by
        simp [FollowupModel.Update]
      obtain ⟨h1, h2, h3, -, -⟩ := m.followup.inputStep_flags (Msg.KeyMsg "f")
      refine ⟨_, _, hstep.trans hact, ?_, ?_, ?_⟩
      · simpa [hin] using h1
      · simpa [hin] using h2
      · simpa [hin] using h3
    · have hstep : m.Update (Msg.KeyMsg "f") now = m.updateCurrentView (Msg.KeyMsg "f") [] := by
        simp [Model.Update, hkm, hsel, hs, DefaultKeyMap, Matches, NewBinding, Binding.Enabled]
      refine ⟨_, _, hstep.trans hr, ?_, ?_, ?_⟩ <;> rw [hsame]

/-- Leaving with esc and coming back with the Followup key, for every toolkit and every
root state with the default key bindings: the flags of the follow-up sub-state are the ones
it had, so a Sent or Error phase is still there after the re-entry. -/
theorem Model.run_esc_f_flags {T : Toolkit} (m : Model T) (now : Time)
    (hkm : m.keyMap = DefaultKeyMap) :
    ∃ m2, m.run now [Msg.KeyMsg "esc", Msg.KeyMsg "f"] = some m2 ∧
      m2.followup.sending = m.followup.sending ∧ m2.followup.sent = m.followup.sent ∧
      m2.followup.error = m.followup.error := by
  obtain ⟨m1, c1, hu1, hv1, hf1, hk1, -⟩ := m.Update_esc now hkm
  obtain ⟨m2, c2, hu2, h1, h2, h3⟩ := m1.Update_f_flags now (hk1.trans hkm) hv1
  refine ⟨m2, ?_, ?_, ?_, ?_⟩
  · simp [Model.run, hu1, hu2]
  · rw [h1, hf1]
  · rw [h2, hf1]
  · rw [h3, hf1]

/-! ## Running the commands -/

/-- C21: with each client call answering a value or an error, every command built by
`fetchAgents`, `fetchConversation` and `sendFollowup` is one closure, and running it gives
one message: `ErrorMsg` with the text of the error when the call answered an error, and
otherwise `AgentsMsg` with the agents of the answer, `ConversationMsg` with the
conversation, `FollowupSentMsg` with the agent id and the message; the message is an
`ErrorMsg` if and only if the call answered an error. -/
theorem C21_command_results (T : Toolkit) (R : Remote) (m : Model T)
    (agentID message : String) :
    (∃ msg, m.fetchAgents.map (Cmd1.run R) = [some msg] ∧
      (∀ e, R.ListAgents m.client 100 "" = .error e → msg = Msg.ErrorMsg e) ∧
      (∀ r, R.ListAgents m.client 100 "" = .ok r → msg = Msg.AgentsMsg r.Agents) ∧
      ((∃ e, msg = Msg.ErrorMsg e) ↔ ∃ e, R.ListAgents m.client 100 "" = .error e)) ∧
    (∃ msg, (m.fetchConversation agentID).map (Cmd1.run R) = [some msg] ∧
      (∀ e, R.GetAgentConversation m.client agentID = .error e → msg = Msg.ErrorMsg e) ∧
      (∀ r, R.GetAgentConversation m.client agentID = .ok r → msg = Msg.ConversationMsg r) ∧
      ((∃ e, msg = Msg.ErrorMsg e) ↔ ∃ e, R.GetAgentConversation m.client agentID = .error e)) ∧
    (∃ msg, (m.sendFollowup agentID message).map (Cmd1.run R) = [some msg] ∧
      (∀ e, R.AddFollowup m.client agentID message = .error e → msg = Msg.ErrorMsg e) ∧
      (∀ r, R.AddFollowup m.client agentID message = .ok r →
        msg = Msg.FollowupSentMsg agentID message) ∧
      ((∃ e, msg = Msg.ErrorMsg e) ↔
        ∃ e, R.AddFollowup m.client agentID message = .error e)) := by
  refine ⟨?_, ?_, ?_⟩
  · cases h : R.ListAgents m.client 100 "" with
    | error e => exact ⟨Msg.ErrorMsg e, by simp [Model.fetchAgents, Cmd1.run, h], by simp⟩
    | ok r => exact ⟨Msg.AgentsMsg r.Agents, by simp [Model.fetchAgents, Cmd1.run, h], by simp⟩
  · cases h : R.GetAgentConversation m.client agentID with
    | error e =>
      exact ⟨Msg.ErrorMsg e, by simp [Model.fetchConversation, Cmd1.run, h], by simp⟩
    | ok r =>
      exact ⟨Msg.ConversationMsg r, by simp [Model.fetchConversation, Cmd1.run, h], by simp⟩
  · cases h : R.AddFollowup m.client agentID message with
    | error e => exact ⟨Msg.ErrorMsg e, by simp [Model.sendFollowup, Cmd1.run, h], by simp⟩
    | ok r =>
      exact ⟨Msg.FollowupSentMsg agentID message,
        by simp [Model.sendFollowup, Cmd1.run, h], by simp⟩

/-- C21 at a service whose list call fails and whose follow-up call succeeds. -/
theorem C21_command_results_witness :
    (NewModel plainToolkit demoClient).fetchAgents.map (Cmd1.run demoRemote)
      = [some (Msg.ErrorMsg "timeout")] ∧
    ((NewModel plainToolkit demoClient).sendFollowup "a1" "ping").map (Cmd1.run demoRemote)
      = [some (Msg.FollowupSentMsg "a1" "ping")] :=
  match C21_command_results plainToolkit demoRemote (NewModel plainToolkit demoClient)
    "a1" "ping" with
  | ⟨⟨_, h1, he, _, _⟩, _, ⟨_, h3, _, hok, _⟩⟩ =>
    ⟨(he "timeout" rfl) ▸ h1, (hok { ID := "f1" } rfl) ▸ h3⟩

/-! ## The clock -/

/-- C23, the claim as stated fails: the same state and the same event give different
states at two readings of the clock (the time stamped into `lastRefresh`), and the same
state and tick give different commands at two readings. -/
theorem C23_update_reads_the_clock :
    ((NewModel plainToolkit demoClient).Update (Msg.AgentsMsg []) 5).map
        (fun r => r.1.lastRefresh) = some 5 ∧
    ((NewModel plainToolkit demoClient).Update (Msg.AgentsMsg []) 7).map
        (fun r => r.1.lastRefresh) = some 7 ∧
    ((NewModel plainToolkit demoClient).Update (Msg.TickMsg 0) (10 * Second)).map
        (fun r => r.2) = some [Cmd1.tickCmd] ∧
    ((NewModel plainToolkit demoClient).Update (Msg.TickMsg 0) (31 * Second)).map
        (fun r => r.2) = some [Cmd1.fetchAgents demoClient, Cmd1.tickCmd] :=
  ⟨rfl, rfl, rfl, rfl⟩

/-- C23, amended: `Model.Update` is a function of the state, the event and the reading of
the clock. For every event other than `AgentsMsg` and `TickMsg` the result is the same at
every reading; on `AgentsMsg` the reading is stamped into `lastRefresh`; on `TickMsg` two
readings that agree on whether more than thirty seconds have passed since `lastRefresh`
give the same result. -/
theorem C23_update_clock (T : Toolkit) (m : Model T) (now1 now2 : Time) :
    (∀ msg, (∀ L, msg ≠ Msg.AgentsMsg L) → (∀ t, msg ≠ Msg.TickMsg t) →
      m.Update msg now1 = m.Update msg now2) ∧
    (∀ L, ∃ m1 cmds, m.Update (Msg.AgentsMsg L) now1 = some (m1, cmds) ∧
      m1.lastRefresh = now1) ∧
    (∀ t, (now1 - m.lastRefresh > 30 * Second ↔ now2 - m.lastRefresh > 30 * Second) →
      m.Update (Msg.TickMsg t) now1 = m.Update (Msg.TickMsg t) now2) := by
  refine ⟨?_, ?_, ?_⟩
  · intro msg hA hT
    cases msg with
    | AgentsMsg L => exact absurd rfl (hA L)
    | TickMsg t => exact absurd rfl (hT t)
    | WindowSizeMsg w h0 | KeyMsg k | ConversationMsg c | ErrorMsg e | AgentSelectedMsg a
    | FollowupSentMsg a b | Other n => rfl
  · intro L
    cases hv : m.currentView <;>
      simp [Model.Update, Model.updateCurrentView, DashboardModel.Update_AgentsMsg, hv,
        DashboardModel.tableStep, DashboardModel.updateTable]
  · intro t hiff
    simp only [Model.Update, Since_gt_iff]
    by_cases h1 : now1 - m.lastRefresh > 30 * Second
    · simp only [h1, hiff.1 h1]
    · have h2 : ¬ now2 - m.lastRefresh > 30 * Second := fun h => h1 (hiff.2 h)
      simp only [h1, h2]

/-- C23 amended, at the initial state of the concrete toolkit for the Refresh key. -/
theorem C23_update_clock_witness :
    (∀ L, Msg.KeyMsg "r" ≠ Msg.AgentsMsg L) ∧ (∀ t, Msg.KeyMsg "r" ≠ Msg.TickMsg t) ∧
    (NewModel plainToolkit demoClient).Update (Msg.KeyMsg "r") 5 =
      (NewModel plainToolkit demoClient).Update (Msg.KeyMsg "r") 7 :=
  ⟨fun _ h => Msg.noConfusion h, fun _ h => Msg.noConfusion h,
    (C23_update_clock plainToolkit (NewModel plainToolkit demoClient) 5 7).1 (Msg.KeyMsg "r")
      (fun _ h => Msg.noConfusion h) (fun _ h => Msg.noConfusion h)⟩

/-! ## Stale selections -/

/-- A session of events leads from a reachable state to a reachable state. -/
theorem Model.Reachable.run {T : Toolkit} {m m1 : Model T} (h : m.Reachable) (now : Time)
    (msgs : List Msg) (hr : Model.run m now msgs = some m1) : m1.Reachable := by
  induction msgs generalizing m with
  | nil =>
    simp only [Model.run, Option.some.injEq] at hr
    exact hr ▸ h
  | cons msg rest ih =>
    unfold Model.run at hr
    cases hu : m.Update msg now with
    | none => simp [hu] at hr
    | some r =>
      simp only [hu] at hr
      exact ih (Model.Reachable.step m r.1 msg now r.2 h hu) hr

/-- C25: for every root state and agent list `L`, `Model.Update` on `AgentsMsg L` returns a
state with the agent list `L` and the selected agent it had, whatever `L` holds. There is
a reachable state (concrete toolkit) whose selected agent a1 has status RUNNING while the
current list holds a1 as COMPLETED, so the selected agent is not a member of the list; in
it the Followup key opens the follow-up view, the guard reading the stale status. -/
theorem C25_selection_survives_refresh :
    (∀ (T : Toolkit) (m : Model T) (L : List Agent) (now : Time),
      ∃ m1 cmds, m.Update (Msg.AgentsMsg L) now = some (m1, cmds) ∧
        m1.agents = L ∧ m1.selectedAgent = m.selectedAgent) ∧
    (∃ m : Model plainToolkit, m.Reachable ∧
      m.selectedAgent = some (mkAgent "a1" "RUNNING") ∧
      m.agents = [mkAgent "a1" "COMPLETED"] ∧
      mkAgent "a1" "RUNNING" ∉ m.agents ∧
      ∃ m1 cmds, m.Update (Msg.KeyMsg "f") 0 = some (m1, cmds) ∧
        m1.currentView = FollowupView) := by
  refine ⟨?_, ?_⟩
  · intro T m L now
    cases hv : m.currentView <;>
      simp [Model.Update, Model.updateCurrentView, DashboardModel.Update_AgentsMsg, hv,
        DashboardModel.tableStep, DashboardModel.updateTable]
  · have hrun : ∃ m : Model plainToolkit,
        Model.run (NewModel plainToolkit demoClient) 0 demoStale = some m ∧
        m.selectedAgent = some (mkAgent "a1" "RUNNING") ∧
        m.agents = [mkAgent "a1" "COMPLETED"] ∧
        mkAgent "a1" "RUNNING" ∉ m.agents ∧
        ∃ m1 cmds, m.Update (Msg.KeyMsg "f") 0 = some (m1, cmds) ∧
          m1.currentView = FollowupView :=
      ⟨_, rfl, rfl, rfl, by decide, _, _, rfl, rfl⟩
    obtain ⟨m, hm, h1, h2, h3, h4⟩ := hrun
    exact ⟨m, (Model.Reachable.init demoClient).run 0 demoStale hm, h1, h2, h3, h4⟩

/-! ## The two filters of expired agents -/

/-- The loop of `filterActiveAgents` is a filter on the upper-cased status. -/
theorem filterActiveAgents_eq_filter (ToUpper : String → String) (L : List Agent) :
    filterActiveAgents ToUpper L = L.filter (fun a => ToUpper a.Status != "EXPIRED") := by
  induction L with
  | nil => rfl
  | cons a rest ih =>
    by_cases h : ToUpper a.Status = "EXPIRED" <;>
      simp [filterActiveAgents, List.filter_cons, h, ih]

/-- C26: `filterActiveAgents` keeps exactly the agents whose upper-cased status is not the
text EXPIRED, the dashboard filter with `showAll = false` exactly those whose status is not
the text EXPIRED; on every list whose statuses are their own upper-casing the two return
the same list, and when upper-casing turns expired into EXPIRED they differ on the list of
one agent with status expired: the list command drops it, the dashboard keeps it. -/
theorem C26_two_filters (ToUpper : String → String) :
    (∀ L, filterActiveAgents ToUpper L =
      L.filter (fun a => decide (ToUpper a.Status ≠ "EXPIRED"))) ∧
    (∀ L, keptAgents false L = L.filter (fun a => decide (a.Status ≠ "EXPIRED"))) ∧
    (∀ L, (∀ a ∈ L, ToUpper a.Status = a.Status) →
      filterActiveAgents ToUpper L = keptAgents false L) ∧
    (ToUpper "expired" = "EXPIRED" →
      filterActiveAgents ToUpper [mkAgent "a1" "expired"] = [] ∧
      keptAgents false [mkAgent "a1" "expired"] = [mkAgent "a1" "expired"]) := by
  refine ⟨?_, ?_, ?_, ?_⟩
  · intro L
    rw [filterActiveAgents_eq_filter]
    congr 1
    funext a
    by_cases h : ToUpper a.Status = "EXPIRED" <;> simp [h]
  · intro L
    rw [keptAgents_eq_filter]
    simp only [Bool.false_or]
    congr 1
    funext a
    by_cases h : a.Status = "EXPIRED" <;> simp [h]
  · intro L hL
    rw [filterActiveAgents_eq_filter, keptAgents_eq_filter]
    apply List.filter_congr
    intro a ha
    simp [hL a ha]
  · intro h
    refine ⟨?_, ?_⟩
    · simp [filterActiveAgents, mkAgent, h]
    · simp [keptAgents, mkAgent]

/-- C26 with the upper-casing of the ASCII letters. -/
theorem C26_two_filters_witness :
    asciiUpper "expired" = "EXPIRED" ∧
    filterActiveAgents asciiUpper [mkAgent "a1" "expired"] = [] ∧
    keptAgents false [mkAgent "a1" "expired"] = [mkAgent "a1" "expired"] :=
  ⟨by decide, (C26_two_filters asciiUpper).2.2.2 (by decide)⟩

/-! ## Scrolling the details -/

/-- The scroll offset never becomes negative. -/
theorem DetailsModel.Update_nonneg (m : DetailsModel) (msg : Msg) (h : 0 ≤ m.scrollOffset) :
    0 ≤ (m.Update msg).1.scrollOffset := by
  cases msg with
  | KeyMsg k =>
    simp only [DetailsModel.Update]
    split_ifs <;> simp <;> omega
  | WindowSizeMsg w h0 | ConversationMsg c | ErrorMsg e | TickMsg t | AgentSelectedMsg a
  | FollowupSentMsg a b | Other n | AgentsMsg L => exact h

/-- In every reachable details state the scroll offset is not negative. -/
theorem DetailsModel.Reachable.nonneg {m : DetailsModel} (h : m.Reachable) :
    0 ≤ m.scrollOffset := by
  induction h with
  | init => exact Int.le_refl 0
  | step m msg _ ih => exact m.Update_nonneg msg ih

/-- The window of a viewport that is not negative: its bounds are inside the content and
it has the height of the viewport. -/
theorem DetailsModel.window_bounds (m : DetailsModel) (height n : Int)
    (hoff : 0 ≤ m.scrollOffset) (hh : 6 ≤ height) (w : Int × Int)
    (hw : m.window height n = some w) :
    0 ≤ w.1 ∧ w.1 ≤ w.2 ∧ w.2 ≤ n ∧ w.2 - w.1 = height - 6 ∧ w.1 ≤ n - (height - 6) := by
  unfold DetailsModel.window at hw
  simp only at hw
  split_ifs at hw with h1 h2 h3 <;> simp only [Option.some.injEq] at hw <;> subst hw <;>
    simp only <;> omega

/-- C22, the claim as stated fails: after one down key the offset is 1, above the bound 0
of a content of one line in a viewport of ten lines; after the end key it is 100, above
the bound 40 of a content of fifty lines in a viewport of ten. -/
theorem C22_offset_exceeds_bound :
    (NewDetailsModel.Update (Msg.KeyMsg "down")).1.Reachable ∧
    (NewDetailsModel.Update (Msg.KeyMsg "down")).1.scrollOffset = 1 ∧
    ¬ (NewDetailsModel.Update (Msg.KeyMsg "down")).1.scrollOffset ≤ max 0 (1 - 10) ∧
    (NewDetailsModel.Update (Msg.KeyMsg "end")).1.Reachable ∧
    (NewDetailsModel.Update (Msg.KeyMsg "end")).1.scrollOffset = 100 ∧
    ¬ (NewDetailsModel.Update (Msg.KeyMsg "end")).1.scrollOffset ≤ max 0 (50 - 10) :=
  ⟨DetailsModel.Reachable.step _ _ DetailsModel.Reachable.init, rfl, by decide,
    DetailsModel.Reachable.step _ _ DetailsModel.Reachable.init, rfl, by decide⟩

/-- C22, amended: in every details state reachable from the initial one the stored scroll
offset is at least 0; it has no upper bound tied to the content. For a content of `n`
lines and a viewport of `h` lines, `h` not negative, the window `DetailsModel.View`
computes from it starts in the interval from 0 to `max 0 (n - h)`: when the content does
not exceed the viewport no window is cut, and otherwise `0 ≤ start ≤ n - h`. -/
theorem C22_window_start_clamped (m : DetailsModel) (hm : m.Reachable) (n h : Int)
    (hh : 0 ≤ h) :
    0 ≤ m.scrollOffset ∧
    (m.window (h + 6) n = none → n ≤ h) ∧
    (∀ w, m.window (h + 6) n = some w → 0 ≤ w.1 ∧ w.1 ≤ max 0 (n - h)) := by
  refine ⟨hm.nonneg, ?_, ?_⟩
  · intro hw
    unfold DetailsModel.window at hw
    simp only at hw
    split_ifs at hw with h1 h2 h3
    omega
  · intro w hw
    have hb := m.window_bounds (h + 6) n hm.nonneg (by omega) w hw
    refine ⟨hb.1, ?_⟩
    have : w.1 ≤ n - h := by omega
    exact le_trans this (le_max_right 0 (n - h))

/-- C22 amended, at the state after the end key, content of fifty lines, viewport of ten. -/
theorem C22_window_start_clamped_witness :
    (NewDetailsModel.Update (Msg.KeyMsg "end")).1.Reachable ∧ (0 : Int) ≤ 10 ∧
    (NewDetailsModel.Update (Msg.KeyMsg "end")).1.window (10 + 6) 50 = some (40, 50) ∧
    ∀ w, (NewDetailsModel.Update (Msg.KeyMsg "end")).1.window (10 + 6) 50 = some w →
      0 ≤ w.1 ∧ w.1 ≤ max 0 (50 - 10) :=
  ⟨DetailsModel.Reachable.step _ _ DetailsModel.Reachable.init, by decide, by decide,
    (C22_window_start_clamped (NewDetailsModel.Update (Msg.KeyMsg "end")).1
      (DetailsModel.Reachable.step _ _ DetailsModel.Reachable.init) 50 10 (by decide)).2.2⟩

/-- For a terminal of at least six rows the slice of `DetailsModel.View` is in bounds: the
view shows the whole content or exactly `height - 6` lines of it. -/
theorem DetailsModel.visibleLines_defined (m : DetailsModel) (height : Int)
    (lines : List String) (hoff : 0 ≤ m.scrollOffset) (hh : 6 ≤ height) :
    ∃ shown, m.visibleLines height lines = some shown ∧
      (shown = lines ∨ (shown.length : Int) = height - 6) := by
  unfold DetailsModel.visibleLines
  cases hw : m.window height lines.length with
  | none => exact ⟨lines, rfl, Or.inl rfl⟩
  | some w =>
    have hb := m.window_bounds height lines.length hoff hh w hw
    have hcond : 0 ≤ w.1 ∧ w.1 ≤ w.2 ∧ w.2 ≤ (lines.length : Int) := ⟨hb.1, hb.2.1, hb.2.2.1⟩
    refine ⟨(lines.drop w.1.toNat).take (w.2 - w.1).toNat, ?_, Or.inr ?_⟩
    · simp only [slice, hcond, and_self, if_true]
    · simp only [List.length_take, List.length_drop]
      omega

/-- C29: terminal heights at which the claim fails. With a height of 1 row, offset 0 and
a content of one line, and with a height of 5 rows and a content of twelve lines, the
window of `DetailsModel.View` has `start = 0` and a negative `end`, so `start ≤ end` fails
and the slice expression panics. -/
theorem C29_window_out_of_bounds_below_six_rows :
    NewDetailsModel.window 1 1 = some (0, -5) ∧
    NewDetailsModel.visibleLines 1 ["x"] = none ∧
    NewDetailsModel.window 5 12 = some (0, -1) ∧
    NewDetailsModel.visibleLines 5
      ["1", "2", "3", "4", "5", "6", "7", "8", "9", "10", "11", "12"] = none :=
  ⟨by decide, by decide, by decide, by decide⟩

/-! ## What only `AgentsMsg` changes -/

/-- A key other than the Quit key: the root changes at most the view before the active
view is stepped. -/
theorem Model.Update_key_view {T : Toolkit} (m : Model T) (k : String) (now : Time)
    (hq : ¬ Matches k m.keyMap.Quit = true) :
    ∃ (v : View) (cmds0 : Cmd), m.Update (Msg.KeyMsg k) now =
      ({ m with currentView := v } : Model T).updateCurrentView (Msg.KeyMsg k) cmds0 := by
  have hsame : ∀ cmds0 : Cmd, ∃ (v : View) (cmds1 : Cmd),
      m.updateCurrentView (Msg.KeyMsg k) cmds0 =
        ({ m with currentView := v } : Model T).updateCurrentView (Msg.KeyMsg k) cmds1 :=
    fun cmds0 => ⟨m.currentView, cmds0, rfl⟩
  have hset : ∀ (v : View) (cmds0 : Cmd), ∃ (v1 : View) (cmds1 : Cmd),
      ({ m with currentView := v } : Model T).updateCurrentView (Msg.KeyMsg k) cmds0 =
        ({ m with currentView := v1 } : Model T).updateCurrentView (Msg.KeyMsg k) cmds1 :=
    fun v cmds0 => ⟨v, cmds0, rfl⟩
  unfold Model.Update
  simp only
  rw [if_neg hq]
  by_cases h1 : Matches k m.keyMap.Help = true
  · rw [if_pos h1]
    exact hset _ _
  rw [if_neg h1]
  by_cases h2 : Matches k m.keyMap.Back = true
  · rw [if_pos h2]
    by_cases hv : m.currentView ≠ DashboardView
    · rw [if_pos hv]
      exact hset _ _
    · rw [if_neg hv]
      exact hsame _
  rw [if_neg h2]
  by_cases h3 : Matches k m.keyMap.Refresh = true
  · rw [if_pos h3]
    exact hsame _
  rw [if_neg h3]
  by_cases h4 : Matches k m.keyMap.Enter = true
  · rw [if_pos h4]
    by_cases hv : m.currentView = DashboardView ∧ m.selectedAgent ≠ none
    · rw [if_pos hv]
      exact hset _ _
    · rw [if_neg hv]
      exact hsame _
  rw [if_neg h4]
  by_cases h5 : Matches k m.keyMap.Details = true
  · rw [if_pos h5]
    by_cases hv : m.selectedAgent ≠ none
    · rw [if_pos hv]
      exact hset _ _
    · rw [if_neg hv]
      exact hsame _
  rw [if_neg h5]
  by_cases h6 : Matches k m.keyMap.Conversation = true
  · rw [if_pos h6]
    split
    · exact hset _ _
    · exact hsame _
  rw [if_neg h6]
  by_cases h7 : Matches k m.keyMap.Followup = true
  · rw [if_pos h7]
    split
    · split_ifs
      · exact hset _ _
      · exact hsame _
    · exact hsame _
  rw [if_neg h7]
  by_cases h8 : Matches k m.keyMap.Settings = true
  · rw [if_pos h8]
    exact hset _ _
  rw [if_neg h8]
  exact hsame _

/-- The step of the active view keeps the fields of the root, and the dashboard it leaves
is the one it found or the one `DashboardModel.Update` returns for the event. -/
theorem Model.updateCurrentView_frame {T : Toolkit} {m : Model T} {msg : Msg} {cmds : Cmd}
    {r : Model T × Cmd} (h : m.updateCurrentView msg cmds = some r) :
    r.1.agents = m.agents ∧ r.1.lastRefresh = m.lastRefresh ∧
    r.1.autoRefresh = m.autoRefresh ∧ r.1.client = m.client ∧ r.1.keyMap = m.keyMap ∧
    (r.1.dashboard = m.dashboard ∨
      ∃ c, m.dashboard.Update msg = some (r.1.dashboard, c)) := by
  unfold Model.updateCurrentView at h
  split at h
  · cases hd : m.dashboard.Update msg with
    | none => simp [hd] at h
    | some p =>
      simp only [hd, Option.some.injEq] at h
      subst h
      exact ⟨rfl, rfl, rfl, rfl, rfl, Or.inr ⟨p.2, rfl⟩⟩
  all_goals
    simp only [Option.some.injEq] at h
    subst h
    exact ⟨rfl, rfl, rfl, rfl, rfl, Or.inl rfl⟩

/-- Every event other than `AgentsMsg` keeps the agent list, `lastRefresh`, `autoRefresh`,
the client and the key map of the root, and steps the dashboard at most once. -/
theorem Model.Update_frame {T : Toolkit} {m : Model T} {msg : Msg} {now : Time}
    {r : Model T × Cmd} (hA : ∀ L, msg ≠ Msg.AgentsMsg L) (h : m.Update msg now = some r) :
    r.1.agents = m.agents ∧ r.1.lastRefresh = m.lastRefresh ∧
    r.1.autoRefresh = m.autoRefresh ∧ r.1.client = m.client ∧ r.1.keyMap = m.keyMap ∧
    (r.1.dashboard = m.dashboard ∨
      ∃ c, m.dashboard.Update msg = some (r.1.dashboard, c)) := by
  cases msg with
  | AgentsMsg L => exact absurd rfl (hA L)
  | KeyMsg k =>
    by_cases hq : Matches k m.keyMap.Quit = true
    · have hu : m.Update (Msg.KeyMsg k) now = some (m, [Cmd1.Quit]) := by
        simp [Model.Update, hq]
      rw [hu] at h
      simp only [Option.some.injEq] at h
      subst h
      exact ⟨rfl, rfl, rfl, rfl, rfl, Or.inl rfl⟩
    · obtain ⟨v, cmds0, hu⟩ := m.Update_key_view k now hq
      rw [hu] at h
      have hf := Model.updateCurrentView_frame h
      exact hf
  | WindowSizeMsg w h0 | ConversationMsg c | ErrorMsg e | TickMsg t | AgentSelectedMsg a
  | FollowupSentMsg a b | Other n =>
    simp only [Model.Update] at h
    have hf := Model.updateCurrentView_frame h
    exact hf

/-! ## The dashboard mirrors the agent list -/

/-- One step of the dashboard keeps the filtered list the filter of the stored list, and
only `AgentsMsg` changes the stored list. -/
theorem DashboardModel.Update_keeps_filter {T : Toolkit} {m m1 : DashboardModel T} {msg : Msg}
    {cmd : Cmd} (h : m.Update msg = some (m1, cmd))
    (hf : m.filteredAgents = keptAgents m.showAll m.allAgents) :
    m1.filteredAgents = keptAgents m1.showAll m1.allAgents ∧
    ((∀ L, msg ≠ Msg.AgentsMsg L) → m1.allAgents = m.allAgents) ∧
    (∀ L, msg = Msg.AgentsMsg L → m1.allAgents = L) := by
  cases msg with
  | KeyMsg k =>
    by_cases ht : k = "t"
    · subst ht
      rw [DashboardModel.Update_toggle] at h
      simp only [Option.some.injEq, Prod.ext_iff] at h
      obtain ⟨rfl, -⟩ := h
      exact ⟨rfl, fun _ => rfl, fun L hL => Msg.noConfusion hL⟩
    · by_cases he : k = "enter"
      · subst he
        by_cases hlt : T.tableCursor m.table < (m.filteredAgents.length : Int)
        · have hne : ("enter" : String) ≠ "t" := by decide
          simp only [DashboardModel.Update, Matches_single, hne, decide_False, decide_True,
            Bool.false_eq_true, if_false, if_true, hlt] at h
          cases hi : index m.filteredAgents (T.tableCursor m.table) with
          | none => simp [hi] at h
          | some a =>
            simp only [hi, Option.some.injEq, Prod.mk.injEq] at h
            obtain ⟨rfl, -⟩ := h
            exact ⟨hf, fun _ => rfl, fun L hL => Msg.noConfusion hL⟩
        · rw [DashboardModel.Update_enter_ge m (by omega)] at h
          simp only [Option.some.injEq, Prod.ext_iff] at h
          obtain ⟨rfl, -⟩ := h
          exact ⟨hf, fun _ => rfl, fun L hL => Msg.noConfusion hL⟩
      · have hu : m.Update (Msg.KeyMsg k) = some (m.tableStep (Msg.KeyMsg k)) := by
          simp [DashboardModel.Update, Matches_single, ht, he]
        rw [hu] at h
        simp only [Option.some.injEq, Prod.ext_iff] at h
        obtain ⟨rfl, -⟩ := h
        exact ⟨hf, fun _ => rfl, fun L hL => Msg.noConfusion hL⟩
  | AgentsMsg L =>
    rw [DashboardModel.Update_AgentsMsg] at h
    simp only [Option.some.injEq, Prod.ext_iff] at h
    obtain ⟨rfl, -⟩ := h
    exact ⟨rfl, fun hA => absurd rfl (hA L), fun L1 hL => (Msg.AgentsMsg.inj hL) ▸ rfl⟩
  | WindowSizeMsg w h0 | ConversationMsg c | ErrorMsg e | TickMsg t | AgentSelectedMsg a
  | FollowupSentMsg a b | Other n =>
    simp only [DashboardModel.Update, Option.some.injEq, Prod.ext_iff] at h
    obtain ⟨rfl, -⟩ := h
    exact ⟨hf, fun _ => rfl, fun L hL => Msg.noConfusion hL⟩

/-- The invariant of the root: the dashboard stores the agent list of the root and its
filtered list is the filter of it. One step keeps it. -/
theorem Model.Update_keeps_mirror {T : Toolkit} {m : Model T} {msg : Msg} {now : Time}
    {r : Model T × Cmd} (h : m.Update msg now = some r)
    (h1 : m.dashboard.allAgents = m.agents)
    (h2 : m.dashboard.filteredAgents = keptAgents m.dashboard.showAll m.dashboard.allAgents) :
    r.1.dashboard.allAgents = r.1.agents ∧
    r.1.dashboard.filteredAgents =
      keptAgents r.1.dashboard.showAll r.1.dashboard.allAgents := by
  by_cases hA : ∀ L, msg ≠ Msg.AgentsMsg L
  · obtain ⟨ha, -, -, -, -, hd⟩ := Model.Update_frame hA h
    rcases hd with hd | ⟨c, hd⟩
    · rw [hd, ha]
      exact ⟨h1, h2⟩
    · obtain ⟨g1, g2, -⟩ := DashboardModel.Update_keeps_filter hd h2
      refine ⟨?_, g1⟩
      rw [ha, g2 hA]
      exact h1
  · push_neg at hA
    obtain ⟨L, rfl⟩ := hA
    simp only [Model.Update, DashboardModel.Update_AgentsMsg] at h
    have hf := Model.updateCurrentView_frame h
    obtain ⟨ha, -, -, -, -, hd⟩ := hf
    have hb : ((m.dashboard.updateTable L).tableStep (Msg.AgentsMsg L)).1.filteredAgents =
        keptAgents ((m.dashboard.updateTable L).tableStep (Msg.AgentsMsg L)).1.showAll
          ((m.dashboard.updateTable L).tableStep (Msg.AgentsMsg L)).1.allAgents := rfl
    rcases hd with hd | ⟨c, hd⟩
    · rw [hd, ha]
      exact ⟨rfl, rfl⟩
    · obtain ⟨g1, -, g3⟩ := DashboardModel.Update_keeps_filter hd hb
      refine ⟨?_, g1⟩
      rw [ha]
      exact g3 L rfl

/-- The invariant holds in every reachable root state. -/
theorem Model.Reachable.inv {T : Toolkit} {m : Model T} (h : m.Reachable) :
    m.dashboard.allAgents = m.agents ∧
    m.dashboard.filteredAgents = keptAgents m.dashboard.showAll m.dashboard.allAgents := by
  induction h with
  | init c => exact ⟨rfl, rfl⟩
  | step m m1 msg now cmds _ hu ih => exact Model.Update_keeps_mirror hu ih.1 ih.2

/-- The count of the loop of the status line is the length of the filter. -/
theorem activeCount_eq (agents : List Agent) :
    activeCount agents = ((keptAgents false agents).length : Int) := by
  have hgen : ∀ (L : List Agent) (acc : Int),
      L.foldl (fun count agent => if agent.Status != "EXPIRED" then count + 1 else count) acc
        = acc + ((keptAgents false L).length : Int) := by
    intro L
    induction L with
    | nil => intro acc; simp [keptAgents]
    | cons a rest ih =>
      intro acc
      rw [List.foldl_cons, ih]
      by_cases ha : a.Status = "EXPIRED"
      · simp [keptAgents, ha]
      · simp [keptAgents, ha]
        omega
  simpa [activeCount] using hgen agents 0

/-- C27: in every root state reachable from `NewModel` by any sequence of events at any
clock readings, the list the dashboard stores is the agent list of the root, the filtered
list of the dashboard is the filter of that list under the current `showAll`, and the count
of the status line computed from the agent list of the root (`len(agents)` when `showAll`,
otherwise the number of agents whose status is not EXPIRED) is the number of filtered
agents. -/
theorem C27_dashboard_mirrors_agents (T : Toolkit) (m : Model T) (h : m.Reachable) :
    m.dashboard.allAgents = m.agents ∧
    m.dashboard.filteredAgents = keptAgents m.dashboard.showAll m.agents ∧
    m.dashboard.statusCount m.agents = (m.dashboard.filteredAgents.length : Int) := by
  obtain ⟨h1, h2⟩ := h.inv
  rw [h1] at h2
  refine ⟨h1, h2, ?_⟩
  rw [h2]
  unfold DashboardModel.statusCount
  cases hs : m.dashboard.showAll
  · simp [activeCount_eq]
  · simp [keptAgents_eq_filter]

theorem demoRefreshed_reachable : demoRefreshed.Reachable :=
  Model.Reachable.step (NewModel plainToolkit demoClient) demoRefreshed
    (Msg.AgentsMsg [mkAgent "a1" "RUNNING", mkAgent "a2" "EXPIRED"]) 0 []
    (Model.Reachable.init demoClient) rfl

/-- C27 at the state reached when a running and an expired agent arrived: one filtered
agent, and the status line counts one. -/
theorem C27_dashboard_mirrors_agents_witness :
    demoRefreshed.Reachable ∧
    demoRefreshed.dashboard.filteredAgents = [mkAgent "a1" "RUNNING"] ∧
    demoRefreshed.dashboard.allAgents = demoRefreshed.agents ∧
    demoRefreshed.dashboard.filteredAgents =
      keptAgents demoRefreshed.dashboard.showAll demoRefreshed.agents ∧
    demoRefreshed.dashboard.statusCount demoRefreshed.agents =
      (demoRefreshed.dashboard.filteredAgents.length : Int) :=
  ⟨demoRefreshed_reachable, rfl,
    C27_dashboard_mirrors_agents plainToolkit demoRefreshed demoRefreshed_reachable⟩

/-! ## Ticks keep refreshing until a list arrives -/

/-- A tick whose refresh is due returns the list-agents command of the client once, and
keeps `lastRefresh`. -/
theorem Model.Update_tick_due {T : Toolkit} (m : Model T) (t now : Time)
    (ha : m.autoRefresh = true) (hd : now - m.lastRefresh > 30 * Second) :
    ∃ m1 cmds, m.Update (Msg.TickMsg t) now = some (m1, cmds) ∧
      cmds.count (Cmd1.fetchAgents m.client) = 1 ∧ m1.lastRefresh = m.lastRefresh ∧
      m1.autoRefresh = m.autoRefresh := by
  obtain ⟨m1, extra, hl, hu⟩ := m.Update_TickMsg t now
  have hc1 := count_eq_zero_of_isLocal hl (Cmd1.fetchAgents m.client) rfl
  obtain ⟨-, h2, h3, -, -, -⟩ :=
    Model.Update_frame (fun L hL => Msg.noConfusion hL) hu
  refine ⟨m1, _, hu, ?_, h2, h3⟩
  simp [ha, hd, List.count_append, hc1]

/-- A timed session without `AgentsMsg` keeps `lastRefresh`, `autoRefresh` and the
client. -/
theorem Model.runTimed_frame {T : Toolkit} (events : List (Msg × Time)) :
    ∀ (m m1 : Model T), (∀ e ∈ events, ∀ L, e.1 ≠ Msg.AgentsMsg L) →
      m.runTimed events = some m1 →
      m1.lastRefresh = m.lastRefresh ∧ m1.autoRefresh = m.autoRefresh ∧
      m1.client = m.client := by
  induction events with
  | nil =>
    intro m m1 _ hr
    simp only [Model.runTimed, Option.some.injEq] at hr
    subst hr
    exact ⟨rfl, rfl, rfl⟩
  | cons e rest ih =>
    intro m m1 hne hr
    unfold Model.runTimed at hr
    cases hu : m.Update e.1 e.2 with
    | none => simp [hu] at hr
    | some r =>
      simp only [hu] at hr
      obtain ⟨-, h2, h3, h4, -, -⟩ :=
        Model.Update_frame (hne e (List.mem_cons_self e rest)) hu
      obtain ⟨g1, g2, g3⟩ := ih r.1 m1 (fun e1 he1 => hne e1 (List.mem_cons_of_mem e he1)) hr
      exact ⟨g1.trans h2, g2.trans h3, g3.trans h4⟩

/-- A timed session of ticks and failures never panics. -/
theorem Model.runTimed_defined {T : Toolkit} (events : List (Msg × Time)) :
    ∀ (m : Model T), (∀ e ∈ events, (∃ s, e.1 = Msg.ErrorMsg s) ∨ ∃ t, e.1 = Msg.TickMsg t) →
      ∃ m1, m.runTimed events = some m1 := by
  induction events with
  | nil => exact fun m _ => ⟨m, rfl⟩
  | cons e rest ih =>
    intro m hev
    have hne : e.1 ≠ Msg.KeyMsg "enter" := by
      rcases hev e (List.mem_cons_self e rest) with ⟨s, hs⟩ | ⟨t, ht⟩
      · rw [hs]; exact fun h => Msg.noConfusion h
      · rw [ht]; exact fun h => Msg.noConfusion h
    have hstep : ∃ r, m.Update e.1 e.2 = some r := by
      rcases hev e (List.mem_cons_self e rest) with ⟨s, hs⟩ | ⟨t, ht⟩
      · rw [hs]
        obtain ⟨r, hr⟩ := Model.updateCurrentView_defined
          ({ m with error := s, loading := false } : Model T) (Msg.ErrorMsg s) []
          (fun _ h => Msg.noConfusion h)
        exact ⟨r, hr⟩
      · rw [ht]
        obtain ⟨m1, extra, -, hu⟩ := m.Update_TickMsg t e.2
        exact ⟨_, hu⟩
    obtain ⟨r, hr⟩ := hstep
    obtain ⟨m1, h1⟩ := ih r.1 (fun e1 he1 => hev e1 (List.mem_cons_of_mem e he1))
    exact ⟨m1, by simp only [Model.runTimed, hr, h1]⟩

/-- C28: `ErrorMsg` leaves `lastRefresh` and `autoRefresh` as they are, and so does every
event other than `AgentsMsg`. Hence after any events without an `AgentsMsg`, processed at
any clock readings, with `autoRefresh` on, every tick at a reading more than thirty
seconds after `lastRefresh` returns the list-agents command once more, and again leaves
`lastRefresh` as it is; nothing records that a fetch is in flight or has failed. Sessions
made of ticks and failures always return. -/
theorem C28_ticks_keep_fetching (T : Toolkit) (m : Model T) :
    (∀ s now, ∃ m1 cmds, m.Update (Msg.ErrorMsg s) now = some (m1, cmds) ∧
      m1.lastRefresh = m.lastRefresh ∧ m1.autoRefresh = m.autoRefresh) ∧
    (∀ msg now r, (∀ L, msg ≠ Msg.AgentsMsg L) → m.Update msg now = some r →
      r.1.lastRefresh = m.lastRefresh ∧ r.1.autoRefresh = m.autoRefresh) ∧
    (∀ (events : List (Msg × Time)) (m1 : Model T),
      (∀ e ∈ events, ∀ L, e.1 ≠ Msg.AgentsMsg L) → m.runTimed events = some m1 →
      m.autoRefresh = true →
      ∀ t now, now - m.lastRefresh > 30 * Second →
        ∃ m2 cmds, m1.Update (Msg.TickMsg t) now = some (m2, cmds) ∧
          cmds.count (Cmd1.fetchAgents m.client) = 1 ∧
          m2.lastRefresh = m.lastRefresh ∧ m2.autoRefresh = true) ∧
    (∀ (events : List (Msg × Time)),
      (∀ e ∈ events, (∃ s, e.1 = Msg.ErrorMsg s) ∨ ∃ t, e.1 = Msg.TickMsg t) →
      ∃ m1, m.runTimed events = some m1) := by
  refine ⟨?_, ?_, ?_, fun events hev => Model.runTimed_defined events m hev⟩
  · intro s now
    obtain ⟨r, hr⟩ := Model.updateCurrentView_defined
      ({ m with error := s, loading := false } : Model T) (Msg.ErrorMsg s) []
      (fun _ h => absurd h (by simp))
    have hu : m.Update (Msg.ErrorMsg s) now = some r := hr
    obtain ⟨-, h2, h3, -, -, -⟩ := Model.Update_frame (fun L hL => Msg.noConfusion hL) hu
    exact ⟨r.1, r.2, hu, h2, h3⟩
  · intro msg now r hA hu
    obtain ⟨-, h2, h3, -, -, -⟩ := Model.Update_frame hA hu
    exact ⟨h2, h3⟩
  · intro events m1 hne hr ha t now hd
    obtain ⟨g1, g2, g3⟩ := Model.runTimed_frame events m m1 hne hr
    obtain ⟨m2, cmds, hu, hc, hl, hau⟩ :=
      m1.Update_tick_due t now (g2.trans ha) (by rw [g1]; exact hd)
    exact ⟨m2, cmds, hu, by rw [← g3]; exact hc, hl.trans g1, hau.trans (g2.trans ha)⟩

/-- C28 at the initial state of the concrete toolkit: after a tick that started a fetch
and the failure of that fetch, the next tick starts another one. -/
theorem C28_ticks_keep_fetching_witness :
    (∀ e ∈ demoFailedRefresh, ∀ L, e.1 ≠ Msg.AgentsMsg L) ∧
    (∃ m1, (NewModel plainToolkit demoClient).runTimed demoFailedRefresh = some m1 ∧
      ∃ m2 cmds, m1.Update (Msg.TickMsg 0) (33 * Second) = some (m2, cmds) ∧
        cmds.count (Cmd1.fetchAgents (NewModel plainToolkit demoClient).client) = 1 ∧
        m2.lastRefresh = (NewModel plainToolkit demoClient).lastRefresh ∧
        m2.autoRefresh = true) :=
  have hne : ∀ e ∈ demoFailedRefresh, ∀ L, e.1 ≠ Msg.AgentsMsg L := by
    intro e he L
    simp only [demoFailedRefresh, List.mem_cons, List.mem_singleton, List.not_mem_nil,
      or_false] at he
    rcases he with rfl | rfl <;> exact fun h => Msg.noConfusion h
  ⟨hne, _, rfl,
    (C28_ticks_keep_fetching plainToolkit (NewModel plainToolkit demoClient)).2.2.1
      demoFailedRefresh _ hne rfl rfl 0 (33 * Second) (by decide)⟩

/-! ## Word wrapping -/

/-- Splitting around a separator splits the two sides. -/
theorem splitOnP_append_sep (p : Char → Bool) (sep : Char) (hsep : p sep = true)
    (xs ys : List Char) :
    (xs ++ sep :: ys).splitOnP p = xs.splitOnP p ++ ys.splitOnP p := by
  induction xs with
  | nil => simp [hsep]
  | cons x rest ih =>
    rw [List.cons_append, List.splitOnP_cons, List.splitOnP_cons, ih]
    by_cases hx : p x = true
    · simp [hx]
    · simp only [hx, Bool.false_eq_true, if_false]
      cases hs : rest.splitOnP p with
      | nil => exact absurd hs (List.splitOnP_ne_nil p rest)
      | cons h t => rfl

/-- The words of two texts joined by a white space character. -/
theorem fieldsChars_append_sep (p : Char → Bool) (sep : Char) (hsep : p sep = true)
    (xs ys : List Char) :
    fieldsChars p (xs ++ sep :: ys) = fieldsChars p xs ++ fieldsChars p ys := by
  simp [fieldsChars, splitOnP_append_sep p sep hsep]

/-- A word is its own only word. -/
theorem fieldsChars_word (p : Char → Bool) (w : List Char) (hne : w ≠ [])
    (hw : ∀ c ∈ w, p c = false) : fieldsChars p w = [w] := by
  have hs : w.splitOnP p = [w] :=
    List.splitOnP_eq_single p w (fun c hc => by simp [hw c hc])
  cases w with
  | nil => exact absurd rfl hne
  | cons c cs => simp [fieldsChars, hs]

/-- The pieces of a split hold no separator. -/
theorem splitOnP_pieces (p : Char → Bool) (cs : List Char) :
    ∀ piece ∈ cs.splitOnP p, ∀ c ∈ piece, p c = false := by
  induction cs with
  | nil =>
    intro piece hp c hc
    simp only [List.splitOnP_nil, List.mem_singleton] at hp
    subst hp
    exact absurd hc (List.not_mem_nil c)
  | cons x rest ih =>
    intro piece hp c hc
    rw [List.splitOnP_cons] at hp
    by_cases hx : p x = true
    · simp only [hx, if_true, List.mem_cons] at hp
      rcases hp with rfl | hp
      · exact absurd hc (List.not_mem_nil c)
      · exact ih piece hp c hc
    · simp only [hx, Bool.false_eq_true, if_false] at hp
      cases hs : rest.splitOnP p with
      | nil => exact absurd hs (List.splitOnP_ne_nil p rest)
      | cons h t =>
        rw [hs] at hp ih
        simp only [List.modifyHead, List.mem_cons] at hp
        rcases hp with rfl | hp
        · simp only [List.mem_cons] at hc
          rcases hc with rfl | hc
          · simpa using hx
          · exact ih h (List.mem_cons_self h t) c hc
        · exact ih piece (List.mem_cons_of_mem h hp) c hc

/-- The results of `Fields` are words. -/
theorem Fields_isWord (p : Char → Bool) (text : String) :
    ∀ w ∈ Fields p text, IsWord p w := by
  intro w hw
  simp only [Fields, fieldsChars, List.mem_map, List.mem_filter] at hw
  obtain ⟨cs, ⟨hmem, hne⟩, rfl⟩ := hw
  refine ⟨?_, splitOnP_pieces p text.data cs hmem⟩
  intro h
  have h0 : cs = [] := h
  subst h0
  simp at hne

/-- Joining with one more piece, inside the accumulating loop of the join. -/
theorem intercalate_go_snoc (sep : String) (as : List String) :
    ∀ (acc x : String),
      String.intercalate.go acc sep (as ++ [x]) = String.intercalate.go acc sep as ++ sep ++ x := by
  induction as with
  | nil => intro acc x; rfl
  | cons a rest ih =>
    intro acc x
    simp only [List.cons_append, String.intercalate.go]
    exact ih _ x

/-- Joining with one more piece. -/
theorem intercalate_snoc (sep : String) (L : List String) (hL : L ≠ []) (x : String) :
    String.intercalate sep (L ++ [x]) = String.intercalate sep L ++ sep ++ x := by
  cases L with
  | nil => exact absurd rfl hL
  | cons a rest =>
    simp only [List.cons_append, String.intercalate]
    exact intercalate_go_snoc sep rest a x

/-- Joining after the last piece was extended. -/
theorem intercalate_snoc_append (sep : String) (L : List String) (c y : String) :
    String.intercalate sep (L ++ [c ++ y]) = String.intercalate sep (L ++ [c]) ++ y := by
  cases L with
  | nil => rfl
  | cons a rest =>
    rw [intercalate_snoc sep (a :: rest) (List.cons_ne_nil a rest),
      intercalate_snoc sep (a :: rest) (List.cons_ne_nil a rest)]
    simp only [String.append_assoc]

/-- The byte length of a concatenation. -/
theorem utf8ByteSize_append_eq (a b : String) :
    (a ++ b).utf8ByteSize = a.utf8ByteSize + b.utf8ByteSize := by
  show String.utf8Len (a.data ++ b.data) = String.utf8Len a.data + String.utf8Len b.data
  exact String.utf8Len_append a.data b.data

/-- Only the empty text has byte length zero. -/
theorem utf8ByteSize_eq_zero_iff (a : String) : a.utf8ByteSize = 0 ↔ a = "" := by
  constructor
  · intro h
    have h1 : String.utf8Len a.data = 0 := h
    have h2 : a.data = [] := String.utf8Len_eq_zero.1 h1
    exact String.ext h2
  · rintro rfl
    rfl

/-- A word is not the empty text. -/
theorem IsWord.ne_empty {p : Char → Bool} {w : String} (h : IsWord p w) : w ≠ "" := by
  rintro rfl
  exact h.1 rfl

/-- The loop of `wordWrap` keeps its invariant. -/
theorem wordWrapLoop_inv (p : Char → Bool) (hsp : p ' ' = true) (hnl : p '\n' = true)
    (width : Int) (words : List String) :
    ∀ (done lines : List String) (cur : String),
      (∀ w ∈ words, IsWord p w) → wordWrapInv p width done lines cur →
      wordWrapInv p width (done ++ words) (wordWrapLoop width words lines cur).1
        (wordWrapLoop width words lines cur).2 := by
  induction words with
  | nil =>
    intro done lines cur _ hinv
    simpa [wordWrapLoop] using hinv
  | cons word rest ih =>
    intro done lines cur hw hinv
    have hword : IsWord p word := hw word (List.mem_cons_self word rest)
    have hrest : ∀ w ∈ rest, IsWord p w := fun w h => hw w (List.mem_cons_of_mem word h)
    have hdone : done ++ word :: rest = (done ++ [word]) ++ rest := by simp
    have hdne : done ++ [word] ≠ [] := by simp
    rw [hdone]
    unfold wordWrapLoop
    by_cases h0 : cur.utf8ByteSize = 0
    · rw [if_pos h0]
      have hcur : cur = "" := (utf8ByteSize_eq_zero_iff cur).1 h0
      have hd : done = [] := by
        by_contra hne
        exact (hinv.2 hne).1 hcur
      obtain ⟨hl, -⟩ := hinv.1 hd
      subst hd hl hcur
      apply ih _ _ _ hrest
      refine ⟨fun h => absurd h hdne, fun _ => ⟨?_, ?_, ?_, ?_⟩⟩
      · simpa using hword.ne_empty
      · have : ("" ++ word : String) = word := by simp
        simp only [List.nil_append, String.intercalate, String.intercalate.go, this,
          List.map_cons, List.map_nil]
        exact fieldsChars_word p word.data hword.1 hword.2
      · intro l hl
        exact absurd hl (List.not_mem_nil l)
      · intro l hl
        simp only [List.nil_append, List.mem_singleton] at hl
        subst hl
        right
        simp
    · rw [if_neg h0]
      have hcne : cur ≠ "" := fun h => h0 ((utf8ByteSize_eq_zero_iff cur).2 h)
      have hd : done ≠ [] := by
        intro hd
        exact hcne (hinv.1 hd).2
      obtain ⟨-, hf, hlines, hsize⟩ := hinv.2 hd
      by_cases hfit : (cur.utf8ByteSize : Int) + (word.utf8ByteSize : Int) + 1 ≤ width
      · rw [if_pos hfit]
        apply ih _ _ _ hrest
        refine ⟨fun h => absurd h hdne, fun _ => ⟨?_, ?_, hlines, ?_⟩⟩
        · intro h
          have h1 := congrArg String.utf8ByteSize h
          rw [utf8ByteSize_append_eq] at h1
          exact h0 (by
            have h2 : ("" : String).utf8ByteSize = 0 := rfl
            omega)
        · rw [intercalate_snoc_append, String.data_append, String.data_append]
          have hsepd : (" " : String).data = [' '] := rfl
          rw [hsepd, List.singleton_append, fieldsChars_append_sep p ' ' hsp, hf,
            fieldsChars_word p word.data hword.1 hword.2]
          simp
        · intro l hl
          simp only [List.mem_append, List.mem_singleton] at hl
          rcases hl with hl | rfl
          · rcases hsize l (List.mem_append_left _ hl) with h | h
            · exact Or.inl h
            · exact Or.inr (List.mem_append_left _ h)
          · left
            rw [utf8ByteSize_append_eq, utf8ByteSize_append_eq]
            have h1 : (" " : String).utf8ByteSize = 1 := rfl
            rw [h1]
            push_cast
            omega
      · rw [if_neg hfit]
        apply ih _ _ _ hrest
        refine ⟨fun h => absurd h hdne, fun _ => ⟨hword.ne_empty, ?_, ?_, ?_⟩⟩
        · rw [intercalate_snoc "\n" (lines ++ [cur]) (by simp), String.data_append,
            String.data_append]
          have hsepd : ("\n" : String).data = ['\n'] := rfl
          rw [hsepd, List.append_assoc, List.singleton_append,
            fieldsChars_append_sep p '\n' hnl, hf,
            fieldsChars_word p word.data hword.1 hword.2]
          simp
        · intro l hl
          simp only [List.mem_append, List.mem_singleton] at hl
          rcases hl with hl | rfl
          · exact hlines l hl
          · exact hcne
        · intro l hl
          simp only [List.mem_append, List.mem_singleton] at hl
          rcases hl with (hl | rfl) | rfl
          · rcases hsize l (List.mem_append_left _ hl) with h | h
            · exact Or.inl h
            · exact Or.inr (List.mem_append_left _ h)
          · rcases hsize l (List.mem_append_right _ (List.mem_singleton_self l)) with h | h
            · exact Or.inl h
            · exact Or.inr (List.mem_append_left _ h)
          · exact Or.inr (by simp)

/-- The lines `wordWrap` joins, for at least one word: the lines of the loop followed by
its last line, with the invariant of the loop for all the words. -/
theorem wordWrapLines_spec (p : Char → Bool) (hsp : p ' ' = true) (hnl : p '\n' = true)
    (width : Int) (words : List String) (hw : ∀ w ∈ words, IsWord p w) (hne : words ≠ []) :
    wordWrapLines words width =
      (wordWrapLoop width words [] "").1 ++ [(wordWrapLoop width words [] "").2] ∧
    fieldsChars p (String.intercalate "\n" (wordWrapLines words width)).data
      = words.map String.data ∧
    ∀ l ∈ wordWrapLines words width, l ≠ "" ∧ ((l.utf8ByteSize : Int) ≤ width ∨ l ∈ words) := by
  have hinv := wordWrapLoop_inv p hsp hnl width words [] [] "" hw
    ⟨fun _ => ⟨rfl, rfl⟩, fun h => absurd rfl h⟩
  rw [List.nil_append] at hinv
  obtain ⟨hcur, hf, hlines, hsize⟩ := hinv.2 hne
  have hpos : (wordWrapLoop width words [] "").2.utf8ByteSize > 0 := by
    have h0 : (wordWrapLoop width words [] "").2.utf8ByteSize ≠ 0 :=
      fun h => hcur ((utf8ByteSize_eq_zero_iff _).1 h)
    omega
  have hl : wordWrapLines words width =
      (wordWrapLoop width words [] "").1 ++ [(wordWrapLoop width words [] "").2] := by
    simp only [wordWrapLines, hpos, if_true]
  refine ⟨hl, by rw [hl]; exact hf, ?_⟩
  intro l hmem
  rw [hl] at hmem
  refine ⟨?_, hsize l hmem⟩
  simp only [List.mem_append, List.mem_singleton] at hmem
  rcases hmem with h | rfl
  · exact hlines l h
  · exact hcur

/-- C30: with the blank and the line feed being white space, for every text and width:
when the text has no word `wordWrap` returns it unchanged; when it has at least one, the
result is the join by line feeds of lines such that the words of the result
(`strings.Fields`) are the words of the text in the same order, no line is empty, and every
line has a byte length of at most the width or is one of the words. -/
theorem C30_wordWrap (m : DetailsModel) (IsSpace : Char → Bool)
    (hsp : IsSpace ' ' = true) (hnl : IsSpace '\n' = true) (text : String) (w : Int) :
    (Fields IsSpace text = [] → m.wordWrap IsSpace text w = text) ∧
    (Fields IsSpace text ≠ [] →
      m.wordWrap IsSpace text w =
        String.intercalate "\n" (wordWrapLines (Fields IsSpace text) w) ∧
      Fields IsSpace (m.wordWrap IsSpace text w) = Fields IsSpace text ∧
      ∀ l ∈ wordWrapLines (Fields IsSpace text) w,
        l ≠ "" ∧ ((l.utf8ByteSize : Int) ≤ w ∨ l ∈ Fields IsSpace text)) := by
  refine ⟨fun h => by simp [DetailsModel.wordWrap, h], fun hne => ?_⟩
  have hlen : ¬ (Fields IsSpace text).length = 0 := fun h => hne (List.length_eq_zero.1 h)
  have hres : m.wordWrap IsSpace text w =
      String.intercalate "\n" (wordWrapLines (Fields IsSpace text) w) := by
    simp only [DetailsModel.wordWrap, hlen, if_false]
  obtain ⟨-, hf, hl⟩ := wordWrapLines_spec IsSpace hsp hnl w (Fields IsSpace text)
    (Fields_isWord IsSpace text) hne
  refine ⟨hres, ?_, hl⟩
  rw [hres]
  show (fieldsChars IsSpace _).map String.mk = _
  rw [hf, List.map_map]
  exact List.map_id'' (fun x => rfl) _

/-- C30 on a text of three words and a width of five bytes. -/
theorem C30_wordWrap_witness :
    demoIsSpace ' ' = true ∧ demoIsSpace '\n' = true ∧
    Fields demoIsSpace " aa bb  cc" = ["aa", "bb", "cc"] ∧
    NewDetailsModel.wordWrap demoIsSpace " aa bb  cc" 5 = "aa bb\ncc" ∧
    Fields demoIsSpace (NewDetailsModel.wordWrap demoIsSpace " aa bb  cc" 5)
      = Fields demoIsSpace " aa bb  cc" :=
  ⟨by decide, by decide, by decide, by decide,
    ((C30_wordWrap NewDetailsModel demoIsSpace (by decide) (by decide) " aa bb  cc" 5).2
      (by decide)).2.1⟩

/-! ## The Sending phase is never entered -/

/-- The step of the active view leaves the follow-up sub-state as it is or steps it. -/
theorem Model.updateCurrentView_followup {T : Toolkit} {m : Model T} {msg : Msg} {cmds : Cmd}
    {r : Model T × Cmd} (h : m.updateCurrentView msg cmds = some r) :
    r.1.followup = m.followup ∨ r.1.followup = (m.followup.Update msg).1 := by
  by_cases hv : m.currentView = FollowupView
  · rw [Model.updateCurrentView_followup_active m msg cmds hv] at h
    simp only [Option.some.injEq] at h
    subst h
    exact Or.inr rfl
  · exact Or.inl (Model.updateCurrentView_followup_inactive hv h)

/-- One step of the root keeps `sending = false` in the follow-up sub-state. -/
theorem Model.Update_keeps_not_sending {T : Toolkit} {m : Model T} {msg : Msg} {now : Time}
    {r : Model T × Cmd} (h : m.Update msg now = some r) (hs : m.followup.sending = false) :
    r.1.followup.sending = false := by
  have key : ∀ (m0 : Model T) (cmds0 : Cmd), m0.updateCurrentView msg cmds0 = some r →
      m0.followup = m.followup → r.1.followup.sending = false := by
    intro m0 cmds0 hu h0
    rcases Model.updateCurrentView_followup hu with h1 | h1
    · rw [h1, h0]
      exact hs
    · rw [h1, h0]
      exact m.followup.Update_sending msg hs
  cases msg with
  | KeyMsg k =>
    by_cases hq : Matches k m.keyMap.Quit = true
    · have hu : m.Update (Msg.KeyMsg k) now = some (m, [Cmd1.Quit]) := by
        simp [Model.Update, hq]
      rw [hu] at h
      simp only [Option.some.injEq] at h
      subst h
      exact hs
    · obtain ⟨v, cmds0, hu⟩ := m.Update_key_view k now hq
      rw [hu] at h
      exact key _ _ h rfl
  | AgentsMsg L =>
    simp only [Model.Update] at h
    split at h
    · exact key _ _ h rfl
    · exact Option.noConfusion h
  | WindowSizeMsg w h0 | ConversationMsg c | ErrorMsg e | TickMsg t | AgentSelectedMsg a
  | FollowupSentMsg a b | Other n =>
    simp only [Model.Update] at h
    exact key _ _ h rfl

/-- In every reachable root state the follow-up sub-state has `sending = false`: the only
assignment of `true` is made by `sendMessage` to its own copy of the state. -/
theorem Model.Reachable.not_sending {T : Toolkit} {m : Model T} (h : m.Reachable) :
    m.followup.sending = false := by
  induction h with
  | init c => rfl
  | step m m1 msg now cmds _ hu ih => exact Model.Update_keeps_not_sending hu ih

end CursorTUI
